import Mathlib

/-!
Shift scheduling: duration arithmetic and assignment validation.

A shallow embedding of `business.js` and `persistence.js`.  The four JSON files
(`employees.json`, `shifts.json`, `assignments.json`, `config.json`) become the four fields
of a `Store`; every `async` function becomes a pure function of the store.  JavaScript
strings are sequences of UTF-16 code units and JavaScript numbers are IEEE-754 binary64
values, both modelled explicitly, since `Number(...)`, `.length`, `+` and `>` decide the
behaviour of the program.
-/

namespace Shifts

/-! ## JavaScript numbers -/

/-- A JavaScript Number, an IEEE-754 binary64 value.  `fin m e` is the finite value
`m * 2^e`; rounding only produces the canonical form, in which either
`2^52 ≤ |m| < 2^53` and `-1074 ≤ e ≤ 971` (normal), or `0 < |m| < 2^52` and `e = -1074`
(subnormal), or `m = 0` and `e = 0` (zero).  The two zeros `+0` and `-0` are identified:
none of the operations the program applies (comparison, `+`, `-`, `*`, `/ 60`,
`Number.isInteger`, `Number.isFinite`) tells them apart. -/
inductive JSNum where
  | nan : JSNum
  | inf (neg : Bool) : JSNum
  | fin (m : Int) (e : Int) : JSNum
  deriving DecidableEq, Repr

/-- The number of binary digits of `n`, computed with at most `fuel` halvings. -/
def bitLength : Nat → Nat → Nat
  | 0, _ => 0
  | fuel + 1, n => if n = 0 then 0 else bitLength fuel (n / 2) + 1

/-- The number `⌊log₂ n⌋` for positive `n` (and `0` for `n = 0`). -/
def ilog2 (n : Nat) : Nat := bitLength n n - 1

/-- The number `⌊log₂ (n / d)⌋` for positive `n` and `d`. -/
def binade (n d : Nat) : Int :=
  if d ≤ n then (ilog2 (n / d) : Int)
  else
    let j := ilog2 ((d + n - 1) / n)
    if d ≤ n * 2 ^ j then -(j : Int) else -(j : Int) - 1

/-- The non-negative fraction `n / d` rounded to the nearest integer, ties to even. -/
def roundHalfEven (n d : Nat) : Nat :=
  let q := n / d
  let r := n % d
  if 2 * r < d then q
  else if d < 2 * r then q + 1
  else if q % 2 = 0 then q else q + 1

/-- The binary64 value nearest to `± n / d` (round to nearest, ties to even), with
gradual underflow and overflow to infinity. -/
def roundFrac (neg : Bool) (n d : Nat) : JSNum :=
  if n = 0 then .fin 0 0
  else
    let u := max (binade n d) (-1022) - 52
    let m := if 0 ≤ u then roundHalfEven n (d * 2 ^ u.toNat)
             else roundHalfEven (n * 2 ^ (-u).toNat) d
    let (m, u) := if m = 2 ^ 53 then (2 ^ 52, u + 1) else (m, u)
    if m = 0 then .fin 0 0
    else if 971 < u then .inf neg
    else .fin (if neg then -(m : Int) else (m : Int)) u

/-- The binary64 value nearest to the rational `n / d`. -/
def fl (n : Int) (d : Nat) : JSNum :=
  roundFrac (decide (n < 0)) n.natAbs d

/-- The binary64 value nearest to `s * 2^x`. -/
def flScaled (s : Int) (x : Int) : JSNum :=
  if 0 ≤ x then fl (s * 2 ^ x.toNat) 1 else fl s (2 ^ (-x).toNat)

namespace JSNum

/-- The Number value of a natural-number literal. -/
def ofNat (n : Nat) : JSNum := fl n 1

/-- The mantissa of a finite value rescaled from exponent `e` to the smaller exponent
`emin`. -/
def scaleTo (m e emin : Int) : Int := m * 2 ^ (e - emin).toNat

/-- The comparison `a < b`; false when either side is `NaN`. -/
def lt : JSNum → JSNum → Bool
  | .nan, _ => false
  | _, .nan => false
  | .inf n, .inf n' => n && !n'
  | .inf n, .fin _ _ => n
  | .fin _ _, .inf n => !n
  | .fin m e, .fin m' e' => decide (scaleTo m e (min e e') < scaleTo m' e' (min e e'))

/-- The comparison `a > b`. -/
def gt (a b : JSNum) : Bool := lt b a

/-- The comparison `a <= b`; false when either side is `NaN`. -/
def le : JSNum → JSNum → Bool
  | .nan, _ => false
  | _, .nan => false
  | a, b => !(lt b a)

/-- The sum `a + b`. -/
def add : JSNum → JSNum → JSNum
  | .nan, _ => .nan
  | _, .nan => .nan
  | .inf n, .inf n' => if n = n' then .inf n else .nan
  | .inf n, .fin _ _ => .inf n
  | .fin _ _, .inf n => .inf n
  | .fin m e, .fin m' e' =>
      flScaled (scaleTo m e (min e e') + scaleTo m' e' (min e e')) (min e e')

/-- The negation `-a`. -/
def neg : JSNum → JSNum
  | .nan => .nan
  | .inf n => .inf (!n)
  | .fin m e => .fin (-m) e

/-- The difference `a - b`. -/
def sub (a b : JSNum) : JSNum := add a (neg b)

/-- The product `a * b`. -/
def mul : JSNum → JSNum → JSNum
  | .nan, _ => .nan
  | _, .nan => .nan
  | .inf n, .inf n' => .inf (n != n')
  | .inf n, .fin m _ => if m = 0 then .nan else .inf (n != decide (m < 0))
  | .fin m _, .inf n => if m = 0 then .nan else .inf (n != decide (m < 0))
  | .fin m e, .fin m' e' => flScaled (m * m') (e + e')

/-- The quotient `a / b`.  A zero divisor is taken to be `+0`; the program divides by
the literal `60` only. -/
def div : JSNum → JSNum → JSNum
  | .nan, _ => .nan
  | _, .nan => .nan
  | .inf _, .inf _ => .nan
  | .inf n, .fin m _ => .inf (n != decide (m < 0))
  | .fin _ _, .inf _ => .fin 0 0
  | .fin m e, .fin m' e' =>
      if m' = 0 then (if m = 0 then .nan else .inf (decide (m < 0)))
      else
        let s : Int := if m' < 0 then -m else m
        if 0 ≤ e - e' then fl (s * 2 ^ (e - e').toNat) m'.natAbs
        else fl s (m'.natAbs * 2 ^ (e' - e).toNat)

/-- `Number.isFinite`. -/
def isFinite : JSNum → Bool
  | .fin _ _ => true
  | _ => false

/-- `Number.isInteger`: finite with no fractional part. -/
def isInteger : JSNum → Bool
  | .fin m e => decide (0 ≤ e) || decide (m % 2 ^ (-e).toNat = 0)
  | _ => false

end JSNum

/-! ## JavaScript strings and `ToNumber` -/

/-- A JavaScript string: a sequence of UTF-16 code units. -/
abbrev JSString := List Nat

/-- The UTF-16 code units of one Unicode scalar value. -/
def utf16Char (c : Char) : List Nat :=
  if c.toNat < 0x10000 then [c.toNat]
  else [0xD800 + (c.toNat - 0x10000) / 0x400, 0xDC00 + (c.toNat - 0x10000) % 0x400]

/-- The JavaScript string written with the given text. -/
def utf16 (s : String) : JSString := s.toList.flatMap utf16Char

/-- `s.slice(a, b)` for `0 ≤ a ≤ b`. -/
def slice (s : JSString) (a b : Nat) : JSString := (s.take b).drop a

/-- The code units `StrWhiteSpaceChar` of the `StringToNumber` grammar: white space
(TAB, VT, FF, SP, NBSP, ZWNBSP and the Unicode space separators) and line terminators
(LF, CR, LS, PS). -/
def isStrWhiteSpaceChar (c : Nat) : Bool :=
  c = 0x09 || c = 0x0A || c = 0x0B || c = 0x0C || c = 0x0D || c = 0x20 || c = 0xA0 ||
  c = 0x1680 || (decide (0x2000 ≤ c) && decide (c ≤ 0x200A)) || c = 0x2028 ||
  c = 0x2029 || c = 0x202F || c = 0x205F || c = 0x3000 || c = 0xFEFF

/-- A decimal digit `0`..`9`. -/
def isDecimalDigit (c : Nat) : Bool := decide (48 ≤ c) && decide (c ≤ 57)

/-- The value of a digit in the given radix, when it is one. -/
def digitValue (radix c : Nat) : Option Nat :=
  let v := if 48 ≤ c ∧ c ≤ 57 then c - 48
           else if 97 ≤ c ∧ c ≤ 102 then c - 87
           else if 65 ≤ c ∧ c ≤ 70 then c - 55
           else radix
  if v < radix then some v else none

/-- The value of a non-empty string of digits of the given radix. -/
def radixValue (radix : Nat) : List Nat → Nat → Option Nat
  | [], acc => some acc
  | c :: cs, acc =>
    match digitValue radix c with
    | some v => radixValue radix cs (acc * radix + v)
    | none => none

/-- The value of a string of decimal digits. -/
def decimalValue (ds : List Nat) : Nat := ds.foldl (fun acc c => acc * 10 + (c - 48)) 0

/-- A `SignedInteger` of the grammar: decimal digits, optionally after `+` or `-`. -/
def signedInteger (s : List Nat) : Option Int :=
  let digits (ds : List Nat) : Option Nat :=
    if ds ≠ [] ∧ ds.all isDecimalDigit then some (decimalValue ds) else none
  match s with
  | 43 :: ds => (digits ds).map (fun v => (v : Int))
  | 45 :: ds => (digits ds).map (fun v => -(v : Int))
  | ds => (digits ds).map (fun v => (v : Int))

/-- The optional `ExponentPart` that ends a decimal literal. -/
def exponentPart (s : List Nat) : Option Int :=
  match s with
  | [] => some 0
  | c :: t => if c = 101 ∨ c = 69 then signedInteger t else none

/-- A `StrUnsignedDecimalLiteral`: `Infinity`, or digits with an optional fraction and
an optional exponent. -/
def strUnsignedDecimalLiteral (neg : Bool) (s : List Nat) : JSNum :=
  if s = [73, 110, 102, 105, 110, 105, 116, 121] then .inf neg
  else
    let ip := s.takeWhile isDecimalDigit
    let r1 := s.dropWhile isDecimalDigit
    let fp := match r1 with
      | 46 :: t => t.takeWhile isDecimalDigit
      | _ => []
    let r2 := match r1 with
      | 46 :: t => t.dropWhile isDecimalDigit
      | _ => r1
    if ip = [] ∧ fp = [] then .nan
    else
      match exponentPart r2 with
      | none => .nan
      | some x =>
        let mant := decimalValue (ip ++ fp)
        let x10 : Int := x - (fp.length : Int)
        if 0 ≤ x10 then roundFrac neg (mant * 10 ^ x10.toNat) 1
        else roundFrac neg mant (10 ^ (-x10).toNat)

/-- A `StrDecimalLiteral`: an unsigned decimal literal with an optional sign. -/
def strDecimalLiteral (s : List Nat) : JSNum :=
  match s with
  | 43 :: t => strUnsignedDecimalLiteral false t
  | 45 :: t => strUnsignedDecimalLiteral true t
  | t => strUnsignedDecimalLiteral false t

/-- A `NonDecimalIntegerLiteral` body: at least one digit of the radix. -/
def nonDecimalIntegerLiteral (radix : Nat) (ds : List Nat) : JSNum :=
  if ds = [] then .nan
  else match radixValue radix ds 0 with
    | some v => fl v 1
    | none => .nan

/-- The string with leading and trailing `StrWhiteSpaceChar`s removed. -/
def trimWhiteSpace (s : JSString) : JSString :=
  ((s.dropWhile isStrWhiteSpaceChar).reverse.dropWhile isStrWhiteSpaceChar).reverse

/-- `StringToNumber`, that is `Number(s)` for a string `s`. -/
def stringToNumber (s : JSString) : JSNum :=
  match trimWhiteSpace s with
  | [] => .fin 0 0
  | 48 :: p :: ds =>
    if p = 120 ∨ p = 88 then nonDecimalIntegerLiteral 16 ds
    else if p = 111 ∨ p = 79 then nonDecimalIntegerLiteral 8 ds
    else if p = 98 ∨ p = 66 then nonDecimalIntegerLiteral 2 ds
    else strDecimalLiteral (48 :: p :: ds)
  | t => strDecimalLiteral t

/-- A value read from a JSON document, or `undefined` for a missing property.  Arrays and
objects are left out: no field of the data model holds one. -/
inductive JSVal where
  | undefined : JSVal
  | null : JSVal
  | bool (b : Bool) : JSVal
  | num (x : JSNum) : JSVal
  | str (s : JSString) : JSVal
  deriving DecidableEq, Repr

/-- `Number(v)`. -/
def Number : JSVal → JSNum
  | .undefined => .nan
  | .null => .fin 0 0
  | .bool true => JSNum.ofNat 1
  | .bool false => .fin 0 0
  | .num x => x
  | .str s => stringToNumber s

/-! ## business.js: the duration calculator -/

/-- `computeShiftDuration(startTime, endTime)`: the length of a shift in hours, or `NaN`. -/
def computeShiftDuration (startTime endTime : JSVal) : JSNum :=
  match startTime, endTime with
  | .str startTime, .str endTime =>
    if startTime.length ≠ 5 ∨ endTime.length ≠ 5 then .nan
    else if startTime.get? 2 ≠ some 58 ∨ endTime.get? 2 ≠ some 58 then .nan
    else
      let sh := stringToNumber (slice startTime 0 2)
      let sm := stringToNumber (slice startTime 3 5)
      let eh := stringToNumber (slice endTime 0 2)
      let em := stringToNumber (slice endTime 3 5)
      if !sh.isInteger || !sm.isInteger || !eh.isInteger || !em.isInteger then .nan
      else if sh.lt (.ofNat 0) || sh.gt (.ofNat 23) || eh.lt (.ofNat 0) || eh.gt (.ofNat 23)
          || sm.lt (.ofNat 0) || sm.gt (.ofNat 59) || em.lt (.ofNat 0) || em.gt (.ofNat 59)
        then .nan
      else
        let startMinutes := (sh.mul (.ofNat 60)).add sm
        let endMinutes := (eh.mul (.ofNat 60)).add em
        let endMinutes :=
          if endMinutes.lt startMinutes then endMinutes.add ((JSNum.ofNat 24).mul (.ofNat 60))
          else endMinutes
        (endMinutes.sub startMinutes).div (.ofNat 60)
  | _, _ => .nan


/-! ## persistence.js: the record store -/

/-- An employee record of `employees.json`. -/
structure Employee where
  employeeId : JSString
  name : JSString
  phone : JSString
  deriving DecidableEq, Repr

/-- A shift record of `shifts.json`.  The two times are kept as JSON values because
`computeShiftDuration` tests their type first. -/
structure Shift where
  shiftId : JSString
  date : JSString
  startTime : JSVal
  endTime : JSVal
  deriving DecidableEq, Repr

/-- An assignment record of `assignments.json`. -/
structure Assignment where
  employeeId : JSString
  shiftId : JSString
  deriving DecidableEq, Repr

/-- The object of `config.json`; a missing `maxDailyHours` reads as `undefined`. -/
structure Config where
  maxDailyHours : JSVal
  deriving DecidableEq, Repr

/-- The contents of the four JSON files. -/
structure Store where
  employees : List Employee
  shifts : List Shift
  assignments : List Assignment
  config : Config
  deriving DecidableEq, Repr

/-- `findEmployee(empId)`: the first employee with that id, if any. -/
def findEmployee (st : Store) (empId : JSString) : Option Employee :=
  st.employees.find? (fun e => e.employeeId = empId)

/-- `findShift(shiftId)`: the first shift with that id, if any. -/
def findShift (st : Store) (shiftId : JSString) : Option Shift :=
  st.shifts.find? (fun s => s.shiftId = shiftId)

/-- `findAssignment(empId, shiftId)`: the first assignment of that pair, if any. -/
def findAssignment (st : Store) (empId shiftId : JSString) : Option Assignment :=
  st.assignments.find? (fun a => a.employeeId = empId ∧ a.shiftId = shiftId)

/-- `addAssignment(empId, shiftId)`: push one record and rewrite the file. -/
def addAssignment (st : Store) (empId shiftId : JSString) : Store :=
  { st with assignments := st.assignments ++ [{ employeeId := empId, shiftId := shiftId }] }

/-- `getEmployeeShifts(empId)`: collect the shift ids of the employee's assignments, then
keep, in file order, every shift whose id is among them. -/
def getEmployeeShifts (st : Store) (empId : JSString) : List Shift :=
  let shiftIds := (st.assignments.filter (fun a => a.employeeId = empId)).map (fun a => a.shiftId)
  st.shifts.filter (fun s => shiftIds.contains s.shiftId)

/-- `getConfig()`. -/
def getConfig (st : Store) : Config := st.config

/-- The decimal numeral of `n`, computed with at most `fuel` divisions. -/
def decimalDigits : Nat → Nat → List Nat
  | 0, _ => []
  | fuel + 1, n => if n < 10 then [48 + n] else decimalDigits fuel (n / 10) ++ [48 + n % 10]

/-- The decimal numeral of a natural number, as `String(n)` writes it. -/
def decimalString (n : Nat) : JSString := decimalDigits (n + 1) n

/-- The integer value of a finite Number that is an integer. -/
def JSNum.toInt : JSNum → Int
  | .fin m e => if 0 ≤ e then m * 2 ^ e.toNat else m / 2 ^ (-e).toNat
  | _ => 0

/-- `String(x)`.  An integer of magnitude at most `2^53` is written with its exact decimal
digits: up to there neighbouring Numbers are at most 1 apart, so the shortest digits that
read back as `x` are all of them.  The three non-finite values are written by name.  The
digits of every other value (a fraction, or a number above `2^53`, where `String` writes
the shortest digits that read back and then zeros) are not modelled and are taken as the
parameter `other`. -/
def numberToString (other : JSNum → JSString) (x : JSNum) : JSString :=
  match x with
  | .nan => utf16 "NaN"
  | .inf false => utf16 "Infinity"
  | .inf true => utf16 "-Infinity"
  | .fin _ _ =>
    if x.isInteger ∧ x.toInt.natAbs ≤ 2 ^ 53 then
      (if x.toInt < 0 then [45] else []) ++ decimalString x.toInt.natAbs
    else other x

/-- `s.padStart(n, c)` for a one-unit filler `c`. -/
def padStart (s : JSString) (n c : Nat) : JSString := List.replicate (n - s.length) c ++ s

/-- The largest numeric suffix found by the loop of `addEmployeeRecord`. -/
def maxEmployeeNumber (employees : List Employee) : JSNum :=
  employees.foldl
    (fun maxId e =>
      let eid := stringToNumber (e.employeeId.drop 1)
      if eid.gt maxId then eid else maxId)
    (.ofNat 0)

/-- `addEmployeeRecord(emp)`: give `emp` the next id and push it. -/
def addEmployeeRecord (other : JSNum → JSString) (employees : List Employee) (emp : Employee) :
    List Employee :=
  let maxId := maxEmployeeNumber employees
  employees ++
    [{ emp with
        employeeId := 69 :: padStart (numberToString other (maxId.add (.ofNat 1))) 3 48 }]

/-! ## business.js: the assignment validator -/

/-- `addEmployee(emp)`: passthrough to the store. -/
def addEmployee (other : JSNum → JSString) (st : Store) (emp : Employee) : Store :=
  { st with employees := addEmployeeRecord other st.employees emp }

/-- `getScheduleForEmployee(empId)`: passthrough to the store. -/
def getScheduleForEmployee (st : Store) (empId : JSString) : List Shift :=
  getEmployeeShifts st empId

/-- The hours already scheduled on `date`: the loop of `assignShift` over `scheduled`. -/
def totalHoursOn (scheduled : List Shift) (date : JSString) : JSNum :=
  scheduled.foldl
    (fun totalHours sc =>
      if sc.date = date then totalHours.add (computeShiftDuration sc.startTime sc.endTime)
      else totalHours)
    (.ofNat 0)

/-- The seven strings `assignShift` can return. -/
inductive AssignResult where
  | ok
  | employeeNotFound
  | shiftNotFound
  | alreadyAssigned
  | invalidConfig
  | invalidShiftTime
  | dailyCapExceeded
  deriving DecidableEq, Repr

/-- The text of each result, as the source writes it. -/
def AssignResult.message : AssignResult → String
  | .ok => "Ok"
  | .employeeNotFound => "Employee does not exist"
  | .shiftNotFound => "Shift does not exist"
  | .alreadyAssigned => "Employee already assigned to shift"
  | .invalidConfig => "Invalid config: maxDailyHours must be a positive number"
  | .invalidShiftTime => "Invalid shift time format"
  | .dailyCapExceeded => "Cannot assign shift: maxDailyHours limit would be exceeded."

/-- `assignShift(empId, shiftId)`: the result returned and the store left behind. -/
def assignShift (st : Store) (empId shiftId : JSString) : AssignResult × Store :=
  match findEmployee st empId with
  | none => (.employeeNotFound, st)
  | some _ =>
    match findShift st shiftId with
    | none => (.shiftNotFound, st)
    | some shift =>
      match findAssignment st empId shiftId with
      | some _ => (.alreadyAssigned, st)
      | none =>
        let config := getConfig st
        let maxDailyHours := Number config.maxDailyHours
        if !maxDailyHours.isFinite || maxDailyHours.le (.ofNat 0) then (.invalidConfig, st)
        else
          let newShiftHours := computeShiftDuration shift.startTime shift.endTime
          if !newShiftHours.isFinite || newShiftHours.le (.ofNat 0) then (.invalidShiftTime, st)
          else
            let scheduled := getEmployeeShifts st empId
            let totalHours := totalHoursOn scheduled shift.date
            if (totalHours.add newShiftHours).gt maxDailyHours then (.dailyCapExceeded, st)
            else (.ok, addAssignment st empId shiftId)

/-! ## Specification-side definitions -/

/-- The Number `x` is the integer `z`, in a form `z * 2^k * 2^(-k)`. -/
def IsInt (x : JSNum) (z : Int) : Prop := ∃ k : Nat, x = .fin (z * 2 ^ k) (-(k : Int))

/-- The text `HH:MM` of hour `h` and minute `m`, two decimal digits each. -/
def hhmm (h m : Nat) : JSString := [48 + h / 10, 48 + h % 10, 58, 48 + m / 10, 48 + m % 10]

/-- The hours of one shift: `computeShiftDuration` of its two times. -/
def Shift.hours (sh : Shift) : JSNum := computeShiftDuration sh.startTime sh.endTime

/-- The sum of a list of Numbers, added left to right from `0` as a `for` loop adds them. -/
def sumHours (xs : List JSNum) : JSNum := xs.foldl JSNum.add (.ofNat 0)

/-- The total hours of the shifts `getEmployeeShifts` returns for the employee on `date`,
summed in the order returned. -/
def dayTotal (st : Store) (empId date : JSString) : JSNum :=
  sumHours (((getEmployeeShifts st empId).filter (fun sh => sh.date = date)).map Shift.hours)

/-- A time of the data model: two digits, a colon, two digits, hour at most 23 and minute
at most 59. -/
def isHHMM : JSVal → Bool
  | .str [a, b, 58, c, d] =>
    isDecimalDigit a && isDecimalDigit b && isDecimalDigit c && isDecimalDigit d &&
      decide (10 * (a - 48) + (b - 48) ≤ 23) && decide (10 * (c - 48) + (d - 48) ≤ 59)
  | _ => false

/-- The data model of the store, as far as the validator relies on it: shift ids are
unique and every stored shift has well-formed times. -/
def DataModel (st : Store) : Prop :=
  (st.shifts.map (fun sh => sh.shiftId)).Nodup ∧
    ∀ sh ∈ st.shifts, isHHMM sh.startTime = true ∧ isHHMM sh.endTime = true

/-- A Number that is neither `NaN` nor negative. -/
def NonNeg (x : JSNum) : Prop := x = .inf false ∨ ∃ m e, 0 ≤ m ∧ x = .fin m e

/-- A shift record written with text. -/
def mkShift (shiftId date startTime endTime : String) : Shift :=
  { shiftId := utf16 shiftId, date := utf16 date,
    startTime := .str (utf16 startTime), endTime := .str (utf16 endTime) }

/-- A store with cap 8 in which `E001` already holds the 5-hour shift `S1`; `S2` is a
3-hour and `S3` a 3.5-hour shift of the same date. -/
def capStore : Store :=
  { employees := [{ employeeId := utf16 "E001", name := utf16 "Amal", phone := utf16 "5550001" }]
    shifts := [mkShift "S1" "2025-01-06" "09:00" "14:00", mkShift "S2" "2025-01-06" "14:00" "17:00",
      mkShift "S3" "2025-01-06" "14:00" "17:30"]
    assignments := [{ employeeId := utf16 "E001", shiftId := utf16 "S1" }]
    config := { maxDailyHours := .num (.ofNat 8) } }

/-- A store with cap 8 and three back-to-back shifts of one date that total exactly eight
hours (66, 368 and 46 minutes); `E001` holds the second and the third. -/
def roundingStore : Store :=
  { employees := [{ employeeId := utf16 "E001", name := utf16 "Amal", phone := utf16 "5550001" }]
    shifts := [mkShift "S1" "2025-01-06" "08:00" "09:06", mkShift "S2" "2025-01-06" "09:06" "15:14",
      mkShift "S3" "2025-01-06" "15:14" "16:00"]
    assignments := [{ employeeId := utf16 "E001", shiftId := utf16 "S2" },
      { employeeId := utf16 "E001", shiftId := utf16 "S3" }]
    config := { maxDailyHours := .num (.ofNat 8) } }

/-- The store `capStore` with one more shift of the same date held by `E001`, whose start
time `9:00` is malformed. -/
def malformedStore : Store :=
  { capStore with
    shifts := mkShift "S0" "2025-01-06" "9:00" "17:00" :: capStore.shifts
    assignments := { employeeId := utf16 "E001", shiftId := utf16 "S0" } :: capStore.assignments }

/-- A store in which two shift records carry the id `S1`. -/
def duplicateIdStore : Store :=
  { employees := [{ employeeId := utf16 "E001", name := utf16 "Amal", phone := utf16 "5550001" }]
    shifts := [mkShift "S1" "2025-01-06" "09:00" "12:00", mkShift "S1" "2025-01-07" "13:00" "15:00"]
    assignments := []
    config := { maxDailyHours := .num (.ofNat 8) } }

/-- The store `capStore` with the given value of `maxDailyHours` and no assignment yet. -/
def configStore (v : JSVal) : Store :=
  { capStore with assignments := [], config := { maxDailyHours := v } }

/-- The total hours of the employee's shifts on `date` whose two times are well-formed,
summed in the order `getEmployeeShifts` returns them. -/
def wellFormedDayTotal (st : Store) (empId date : JSString) : JSNum :=
  sumHours (((getEmployeeShifts st empId).filter
    (fun sh => sh.date = date && isHHMM sh.startTime && isHHMM sh.endTime)).map Shift.hours)

/-- The employee id of sequence number `n`: the letter `E`, then `n` in decimal, zero-padded
to three digits. -/
def employeeIdOf (n : Nat) : JSString := 69 :: padStart (decimalString n) 3 48

/-- The id has a numeric suffix: what follows its first code unit is a non-empty string of
decimal digits. -/
def HasNumericSuffix (employeeId : JSString) : Prop :=
  employeeId.drop 1 ≠ [] ∧ ∀ c ∈ employeeId.drop 1, isDecimalDigit c = true

/-- The numeric suffix of an id: the decimal value of what follows its first code unit. -/
def numericSuffix (employeeId : JSString) : Nat := decimalValue (employeeId.drop 1)

/-- The largest numeric suffix among the ids of the list, and `0` for the empty list. -/
def maxSuffix (employees : List Employee) : Nat :=
  (employees.map (fun x => numericSuffix x.employeeId)).foldl max 0

/-- An employee record whose id has the numeric suffix `2^53`. -/
def largeIdEmployee : Employee :=
  { employeeId := utf16 "E9007199254740992", name := utf16 "Amal", phone := utf16 "5550001" }

/-- An employee record to add; `addEmployeeRecord` replaces its id. -/
def newEmployee : Employee :=
  { employeeId := [], name := utf16 "Badr", phone := utf16 "5550002" }


/-! ## Exactness of the number model on integers -/

theorem bitLength_zero (fuel : Nat) : bitLength fuel 0 = 0 := by
  cases fuel <;> simp [bitLength]

theorem bitLength_spec : ∀ (fuel n : Nat), n < 2 ^ fuel →
    n < 2 ^ bitLength fuel n ∧ (0 < n → 2 ^ (bitLength fuel n - 1) ≤ n) := by
  intro fuel
  induction fuel with
  | zero =>
    intro n hn
    have : n = 0 := by simpa using hn
    subst this
    simp [bitLength]
  | succ f ih =>
    intro n hn
    by_cases h0 : n = 0
    · subst h0; simp [bitLength]
    · have hlt : n / 2 < 2 ^ f := by
        rw [Nat.div_lt_iff_lt_mul (by norm_num)]
        rw [pow_succ] at hn; exact hn
      obtain ⟨h1, h2⟩ := ih (n / 2) hlt
      simp only [bitLength, h0, if_false, Nat.add_sub_cancel]
      refine ⟨?_, fun _ => ?_⟩
      · rw [pow_succ]
        exact (Nat.div_lt_iff_lt_mul (by norm_num)).1 h1
      · by_cases hh : n / 2 = 0
        · rw [hh, bitLength_zero]; simp; omega
        · have hpos : 0 < n / 2 := Nat.pos_of_ne_zero hh
          have h3 := h2 hpos
          have hb : 1 ≤ bitLength f (n / 2) := by
            by_contra hcon
            have : bitLength f (n / 2) = 0 := by omega
            rw [this] at h1; simp at h1; omega
          have : 2 ^ bitLength f (n / 2) = 2 * 2 ^ (bitLength f (n / 2) - 1) := by
            conv_lhs => rw [← Nat.sub_add_cancel hb]
            rw [pow_succ]; ring
          rw [this]; omega

theorem ilog2_spec (n : Nat) (hn : 0 < n) : 2 ^ ilog2 n ≤ n ∧ n < 2 ^ (ilog2 n + 1) := by
  obtain ⟨h1, h2⟩ := bitLength_spec n n (Nat.lt_two_pow n)
  have hb : 1 ≤ bitLength n n := by
    by_contra hcon
    have : bitLength n n = 0 := by omega
    rw [this] at h1; simp at h1; omega
  unfold ilog2
  refine ⟨h2 hn, ?_⟩
  rw [Nat.sub_add_cancel hb]; exact h1

theorem roundHalfEven_mul_right (n d c : Nat) (hc : 0 < c) :
    roundHalfEven (n * c) (d * c) = roundHalfEven n d := by
  unfold roundHalfEven
  simp only [Nat.mul_div_mul_right n d hc, Nat.mul_mod_mul_right]
  have e1 : (2 * (n % d * c) < d * c) ↔ (2 * (n % d) < d) := by
    rw [← mul_assoc]; exact Nat.mul_lt_mul_right hc
  have e2 : (d * c < 2 * (n % d * c)) ↔ (d < 2 * (n % d)) := by
    rw [← mul_assoc]; exact Nat.mul_lt_mul_right hc
  simp only [e1, e2]

theorem roundHalfEven_one (n : Nat) : roundHalfEven n 1 = n := by
  simp [roundHalfEven, Nat.mod_one]

theorem ceilDiv_mul_right (n d c : Nat) (hn : 0 < n) (hc : 0 < c) :
    (d * c + n * c - 1) / (n * c) = (d + n - 1) / n := by
  obtain ⟨x, hx⟩ : ∃ x, d + n = x + 1 := ⟨d + n - 1, by omega⟩
  have hx' : d + n - 1 = x := by omega
  have hsum : d * c + n * c = x * c + c := by
    have : (d + n) * c = (x + 1) * c := by rw [hx]
    linarith [this]
  rw [hx', hsum]
  have h1 : x / n * n ≤ x := Nat.div_mul_le_self x n
  have h2 : x < (x / n + 1) * n := by
    have := Nat.div_add_mod x n
    have hm := Nat.mod_lt x hn
    nlinarith
  apply Nat.div_eq_of_lt_le
  · have : x / n * n * c ≤ x * c := Nat.mul_le_mul_right c h1
    have e : x / n * (n * c) = x / n * n * c := by ring
    rw [e]; omega
  · have h3 : x + 1 ≤ (x / n + 1) * n := h2
    have : (x + 1) * c ≤ (x / n + 1) * n * c := Nat.mul_le_mul_right c h3
    have e : (x / n).succ * (n * c) = (x / n + 1) * n * c := by
      simp only [Nat.succ_eq_add_one]; ring
    have e2 : (x + 1) * c = x * c + c := by ring
    rw [e]; omega

theorem binade_mul_right (n d c : Nat) (hn : 0 < n) (hc : 0 < c) :
    binade (n * c) (d * c) = binade n d := by
  unfold binade
  have e1 : (d * c ≤ n * c) ↔ (d ≤ n) := mul_le_mul_iff_of_pos_right hc
  have e3 : ∀ j, (d * c ≤ n * c * 2 ^ j) ↔ (d ≤ n * 2 ^ j) := by
    intro j
    have : n * c * 2 ^ j = n * 2 ^ j * c := by ring
    rw [this]; exact mul_le_mul_iff_of_pos_right hc
  simp only [e1, Nat.mul_div_mul_right n d hc, ceilDiv_mul_right n d c hn hc, e3]

theorem roundFrac_mul_right (neg : Bool) (n d c : Nat) (hc : 0 < c) :
    roundFrac neg (n * c) (d * c) = roundFrac neg n d := by
  by_cases hn : n = 0
  · subst hn; simp [roundFrac]
  · have hnpos : 0 < n := Nat.pos_of_ne_zero hn
    have hnc : n * c ≠ 0 := Nat.mul_ne_zero hn (Nat.ne_of_gt hc)
    unfold roundFrac
    simp only [hn, hnc, if_false, binade_mul_right n d c hnpos hc]
    have e1 : ∀ k, roundHalfEven (n * c) (d * c * 2 ^ k) = roundHalfEven n (d * 2 ^ k) := by
      intro k
      have : d * c * 2 ^ k = d * 2 ^ k * c := by ring
      rw [this]; exact roundHalfEven_mul_right _ _ _ hc
    have e2 : ∀ k, roundHalfEven (n * c * 2 ^ k) (d * c) = roundHalfEven (n * 2 ^ k) d := by
      intro k
      have : n * c * 2 ^ k = n * 2 ^ k * c := by ring
      rw [this]; exact roundHalfEven_mul_right _ _ _ hc
    simp only [e1, e2]

theorem fl_mul_right (z : Int) (d c : Nat) (hc : 0 < c) :
    fl (z * (c : Int)) (d * c) = fl z d := by
  unfold fl
  have hcz : (0 : Int) < (c : Int) := by exact_mod_cast hc
  have e1 : decide (z * (c : Int) < 0) = decide (z < 0) := by
    congr 1
    apply propext
    constructor
    · intro h
      by_contra hz
      push_neg at hz
      have := mul_nonneg hz (le_of_lt hcz)
      omega
    · intro h
      exact mul_neg_of_neg_of_pos h hcz
  rw [e1, Int.natAbs_mul, Int.natAbs_ofNat]
  exact roundFrac_mul_right _ _ _ _ hc

theorem signed_natAbs (z : Int) (c : Nat) :
    (if decide (z < 0) = true then -((z.natAbs * c : Nat) : Int) else ((z.natAbs * c : Nat) : Int))
      = z * (c : Int) := by
  by_cases hz : z < 0
  · simp only [hz, decide_True, if_true]
    push_cast
    rw [abs_of_neg hz]; ring
  · simp only [hz, decide_False]
    push_cast
    rw [abs_of_nonneg (not_lt.1 hz)]

theorem fl_int_form (z : Int) (hz : z.natAbs < 2 ^ 53) : IsInt (fl z 1) z := by
  by_cases h0 : z = 0
  · subst h0
    exact ⟨0, by simp [fl, roundFrac]⟩
  · have hn : 0 < z.natAbs := Int.natAbs_pos.2 h0
    obtain ⟨hlo, hhi⟩ := ilog2_spec z.natAbs hn
    have hL : ilog2 z.natAbs < 53 := by
      have := lt_of_le_of_lt hlo hz
      exact (Nat.pow_lt_pow_iff_right (by norm_num)).1 this
    have hb : binade z.natAbs 1 = (ilog2 z.natAbs : Int) := by
      unfold binade
      simp [Nat.succ_le_of_lt hn]
    refine ⟨52 - ilog2 z.natAbs, ?_⟩
    have hm : z.natAbs * 2 ^ (52 - ilog2 z.natAbs) < 2 ^ 53 := by
      have h1 : z.natAbs * 2 ^ (52 - ilog2 z.natAbs)
          < 2 ^ (ilog2 z.natAbs + 1) * 2 ^ (52 - ilog2 z.natAbs) :=
        Nat.mul_lt_mul_of_pos_right hhi (by positivity)
      have h2 : 2 ^ (ilog2 z.natAbs + 1) * 2 ^ (52 - ilog2 z.natAbs) = 2 ^ 53 := by
        rw [← pow_add]; congr 1; omega
      omega
    have hm0 : z.natAbs * 2 ^ (52 - ilog2 z.natAbs) ≠ 0 :=
      Nat.mul_ne_zero (Nat.ne_of_gt hn) (by positivity)
    have hmax : max (ilog2 z.natAbs : Int) (-1022) = (ilog2 z.natAbs : Int) := by
      apply max_eq_left; omega
    unfold fl roundFrac
    simp only [Nat.ne_of_gt hn, if_false, hb, hmax]
    by_cases h52 : ilog2 z.natAbs = 52
    · have hu : (0 : Int) ≤ (ilog2 z.natAbs : Int) - 52 := by omega
      have hu' : ((ilog2 z.natAbs : Int) - 52).toNat = 0 := by omega
      have hk : 52 - ilog2 z.natAbs = 0 := by omega
      rw [hk] at hm hm0 ⊢
      simp only [pow_zero, mul_one] at hm hm0 ⊢
      simp only [hu, if_true, hu', pow_zero, mul_one, roundHalfEven_one, Nat.ne_of_lt hm, if_false,
        hm0]
      have h971 : ¬ ((971 : Int) < (ilog2 z.natAbs : Int) - 52) := by omega
      simp only [h971, if_false]
      have := signed_natAbs z 1
      simp only [mul_one, Nat.cast_one] at this
      rw [this, h52]; norm_num
    · have hu : ¬ ((0 : Int) ≤ (ilog2 z.natAbs : Int) - 52) := by omega
      have hu' : (-((ilog2 z.natAbs : Int) - 52)).toNat = 52 - ilog2 z.natAbs := by omega
      simp only [hu, if_false, hu', roundHalfEven_one, Nat.ne_of_lt hm, hm0]
      have h971 : ¬ ((971 : Int) < (ilog2 z.natAbs : Int) - 52) := by omega
      simp only [h971, if_false]
      have := signed_natAbs z (2 ^ (52 - ilog2 z.natAbs))
      rw [this]
      congr 1
      · push_cast; rfl
      · omega

theorem min_neg_cast (k j : Nat) : min (-(k : Int)) (-(j : Int)) = -((max k j : Nat) : Int) := by
  rcases le_total k j with h | h
  · rw [max_eq_right h, min_eq_right (by omega)]
  · rw [max_eq_left h, min_eq_left (by omega)]

theorem scaleTo_int_left (a : Int) (k j : Nat) :
    JSNum.scaleTo (a * 2 ^ k) (-(k : Int)) (min (-(k : Int)) (-(j : Int))) = a * 2 ^ max k j := by
  unfold JSNum.scaleTo
  rw [min_neg_cast]
  have : (-(k : Int) - -((max k j : Nat) : Int)).toNat = max k j - k := by
    have := le_max_left k j
    omega
  rw [this, mul_assoc, ← pow_add]
  congr 2
  have := le_max_left k j
  omega

theorem scaleTo_int_right (b : Int) (k j : Nat) :
    JSNum.scaleTo (b * 2 ^ j) (-(j : Int)) (min (-(k : Int)) (-(j : Int))) = b * 2 ^ max k j := by
  rw [min_comm, scaleTo_int_left, max_comm]

theorem flScaled_int (s : Int) (K : Nat) : flScaled (s * 2 ^ K) (-(K : Int)) = fl s 1 := by
  unfold flScaled
  by_cases hK : K = 0
  · subst hK; simp
  · have h1 : ¬ ((0 : Int) ≤ -(K : Int)) := by omega
    simp only [h1, if_false, neg_neg, Int.toNat_ofNat]
    have := fl_mul_right s 1 (2 ^ K) (by positivity)
    simpa using this

theorem isInt_isFinite {x : JSNum} {z : Int} (h : IsInt x z) : x.isFinite = true := by
  obtain ⟨k, rfl⟩ := h; rfl

theorem isInt_isInteger {x : JSNum} {z : Int} (h : IsInt x z) : x.isInteger = true := by
  obtain ⟨k, rfl⟩ := h
  simp [JSNum.isInteger]

theorem isInt_toInt {x : JSNum} {z : Int} (h : IsInt x z) : x.toInt = z := by
  obtain ⟨k, rfl⟩ := h
  unfold JSNum.toInt
  by_cases hk : k = 0
  · subst hk; simp
  · have h1 : ¬ ((0 : Int) ≤ -(k : Int)) := by omega
    simp only [h1, if_false, neg_neg, Int.toNat_ofNat]
    exact Int.mul_ediv_cancel _ (by positivity)

theorem isInt_lt {x y : JSNum} {a b : Int} (hx : IsInt x a) (hy : IsInt y b) :
    x.lt y = decide (a < b) := by
  obtain ⟨k, rfl⟩ := hx
  obtain ⟨j, rfl⟩ := hy
  simp only [JSNum.lt, scaleTo_int_left, scaleTo_int_right]
  congr 1
  apply propext
  exact mul_lt_mul_right (by positivity)

theorem isInt_gt {x y : JSNum} {a b : Int} (hx : IsInt x a) (hy : IsInt y b) :
    x.gt y = decide (b < a) := by
  unfold JSNum.gt; exact isInt_lt hy hx

theorem isInt_le {x y : JSNum} {a b : Int} (hx : IsInt x a) (hy : IsInt y b) :
    x.le y = decide (a ≤ b) := by
  have h := isInt_lt hy hx
  obtain ⟨k, rfl⟩ := hx
  obtain ⟨j, rfl⟩ := hy
  simp only [JSNum.le, h]
  by_cases hab : a ≤ b
  · simp [hab, not_lt.2 hab]
  · simp [hab, not_le.1 hab]

theorem isInt_add {x y : JSNum} {a b : Int} (hx : IsInt x a) (hy : IsInt y b) :
    x.add y = fl (a + b) 1 := by
  obtain ⟨k, rfl⟩ := hx
  obtain ⟨j, rfl⟩ := hy
  simp only [JSNum.add]
  rw [scaleTo_int_left, scaleTo_int_right, min_neg_cast, ← add_mul]
  exact flScaled_int _ _

theorem isInt_neg {x : JSNum} {a : Int} (hx : IsInt x a) : IsInt x.neg (-a) := by
  obtain ⟨k, rfl⟩ := hx
  exact ⟨k, by simp [JSNum.neg]⟩

theorem isInt_sub {x y : JSNum} {a b : Int} (hx : IsInt x a) (hy : IsInt y b) :
    x.sub y = fl (a - b) 1 := by
  unfold JSNum.sub
  rw [isInt_add hx (isInt_neg hy), sub_eq_add_neg]

theorem isInt_mul {x y : JSNum} {a b : Int} (hx : IsInt x a) (hy : IsInt y b) :
    x.mul y = fl (a * b) 1 := by
  obtain ⟨k, rfl⟩ := hx
  obtain ⟨j, rfl⟩ := hy
  simp only [JSNum.mul]
  have e1 : a * 2 ^ k * (b * 2 ^ j) = a * b * 2 ^ (k + j) := by rw [pow_add]; ring
  have e2 : -(k : Int) + -(j : Int) = -((k + j : Nat) : Int) := by push_cast; ring
  rw [e1, e2]
  exact flScaled_int _ _

theorem isInt_div {x y : JSNum} {a b : Int} (hx : IsInt x a) (hy : IsInt y b) (hb : 0 < b) :
    x.div y = fl a b.natAbs := by
  obtain ⟨k, rfl⟩ := hx
  obtain ⟨j, rfl⟩ := hy
  have hpos : (0 : Int) < b * 2 ^ j := mul_pos hb (by positivity)
  have h1 : b * 2 ^ j ≠ 0 := ne_of_gt hpos
  have h2 : ¬ (b * 2 ^ j < 0) := not_lt.2 (le_of_lt hpos)
  have habs : (b * 2 ^ j).natAbs = b.natAbs * 2 ^ j := by
    rw [Int.natAbs_mul, Int.natAbs_pow]; rfl
  simp only [JSNum.div, h1, h2, if_false, habs]
  by_cases hjk : (0 : Int) ≤ -(k : Int) - -(j : Int)
  · have e : (-(k : Int) - -(j : Int)).toNat = j - k := by omega
    simp only [hjk, if_true, e]
    have e2 : a * 2 ^ k * 2 ^ (j - k) = a * ((2 ^ j : Nat) : Int) := by
      rw [mul_assoc, ← pow_add]; push_cast; congr 2; omega
    rw [e2]
    exact fl_mul_right a b.natAbs (2 ^ j) (by positivity)
  · have e : (-(j : Int) - -(k : Int)).toNat = k - j := by omega
    simp only [hjk, if_false, e]
    have e2 : b.natAbs * 2 ^ j * 2 ^ (k - j) = b.natAbs * 2 ^ k := by
      rw [mul_assoc, ← pow_add]; congr 2; omega
    have e3 : a * 2 ^ k = a * ((2 ^ k : Nat) : Int) := by push_cast; rfl
    rw [e2, e3]
    exact fl_mul_right a b.natAbs (2 ^ k) (by positivity)

theorem isInt_ofNat (n : Nat) (hn : n < 2 ^ 53) : IsInt (JSNum.ofNat n) n := by
  unfold JSNum.ofNat
  exact fl_int_form n (by simpa using hn)

theorem stringToNumber_two_digits :
    ∀ a b : Fin 10, stringToNumber [48 + a.val, 48 + b.val] = JSNum.ofNat (10 * a.val + b.val) := by
  decide

theorem stringToNumber_field (h : Nat) (hh : h < 100) :
    stringToNumber [48 + h / 10, 48 + h % 10] = JSNum.ofNat h := by
  have := stringToNumber_two_digits ⟨h / 10, by omega⟩ ⟨h % 10, by omega⟩
  simp only at this
  rw [this]
  congr 1
  omega

theorem isInt_fl_nat (n : Nat) (hn : n < 2 ^ 53) : IsInt (fl (n : Int) 1) n :=
  fl_int_form n (by simpa using hn)

theorem minutes_isInt (h m : Nat) (hh : h < 24) (hm : m < 60) :
    IsInt (((JSNum.ofNat h).mul (JSNum.ofNat 60)).add (JSNum.ofNat m)) ((h * 60 + m : Nat) : Int) := by
  have h1 := isInt_ofNat h (by omega)
  have h2 := isInt_ofNat 60 (by norm_num)
  have h3 := isInt_ofNat m (by omega)
  have hmul : (JSNum.ofNat h).mul (JSNum.ofNat 60) = fl ((h * 60 : Nat) : Int) 1 := by
    rw [isInt_mul h1 h2]; push_cast; rfl
  have h4 : IsInt ((JSNum.ofNat h).mul (JSNum.ofNat 60)) ((h * 60 : Nat) : Int) := by
    rw [hmul]; exact isInt_fl_nat _ (by omega)
  have hadd := isInt_add h4 h3
  rw [hadd]
  have : ((h * 60 : Nat) : Int) + (m : Int) = ((h * 60 + m : Nat) : Int) := by push_cast; rfl
  rw [this]
  exact isInt_fl_nat _ (by omega)

theorem computeShiftDuration_hhmm (h1 m1 h2 m2 : Nat)
    (hh1 : h1 < 24) (hm1 : m1 < 60) (hh2 : h2 < 24) (hm2 : m2 < 60) :
    computeShiftDuration (.str (hhmm h1 m1)) (.str (hhmm h2 m2)) =
      if h1 * 60 + m1 ≤ h2 * 60 + m2
      then fl (((h2 * 60 + m2 : Nat) : Int) - ((h1 * 60 + m1 : Nat) : Int)) 60
      else fl (((h2 * 60 + m2 : Nat) : Int) + 1440 - ((h1 * 60 + m1 : Nat) : Int)) 60 := by
  have i0 := isInt_ofNat 0 (by norm_num)
  have i23 := isInt_ofNat 23 (by norm_num)
  have i59 := isInt_ofNat 59 (by norm_num)
  have i60 := isInt_ofNat 60 (by norm_num)
  have i24 := isInt_ofNat 24 (by norm_num)
  have ih1 := isInt_ofNat h1 (by omega)
  have im1 := isInt_ofNat m1 (by omega)
  have ih2 := isInt_ofNat h2 (by omega)
  have im2 := isInt_ofNat m2 (by omega)
  have iS := minutes_isInt h1 m1 hh1 hm1
  have iE := minutes_isInt h2 m2 hh2 hm2
  have i1440 : IsInt ((JSNum.ofNat 24).mul (JSNum.ofNat 60)) 1440 := by
    rw [isInt_mul i24 i60]; exact fl_int_form _ (by norm_num)
  have s1 : slice (hhmm h1 m1) 0 2 = [48 + h1 / 10, 48 + h1 % 10] := rfl
  have s2 : slice (hhmm h1 m1) 3 5 = [48 + m1 / 10, 48 + m1 % 10] := rfl
  have s3 : slice (hhmm h2 m2) 0 2 = [48 + h2 / 10, 48 + h2 % 10] := rfl
  have s4 : slice (hhmm h2 m2) 3 5 = [48 + m2 / 10, 48 + m2 % 10] := rfl
  have l1 : (hhmm h1 m1).length = 5 := rfl
  have l2 : (hhmm h2 m2).length = 5 := rfl
  have g1 : (hhmm h1 m1).get? 2 = some 58 := rfl
  have g2 : (hhmm h2 m2).get? 2 = some 58 := rfl
  unfold computeShiftDuration
  simp only [l1, l2, g1, g2, s1, s2, s3, s4, ne_eq, not_true_eq_false, or_self, if_false,
    stringToNumber_field h1 (by omega), stringToNumber_field m1 (by omega),
    stringToNumber_field h2 (by omega), stringToNumber_field m2 (by omega),
    (isInt_isInteger ih1), (isInt_isInteger im1), (isInt_isInteger ih2), (isInt_isInteger im2),
    isInt_lt ih1 i0, isInt_lt ih2 i0, isInt_lt im1 i0, isInt_lt im2 i0,
    isInt_gt ih1 i23, isInt_gt ih2 i23, isInt_gt im1 i59, isInt_gt im2 i59,
    isInt_lt iE iS]
  have c1 : ¬ ((h1 : Int) < ((0 : Nat) : Int)) := by omega
  have c2 : ¬ ((h2 : Int) < ((0 : Nat) : Int)) := by omega
  have c3 : ¬ ((m1 : Int) < ((0 : Nat) : Int)) := by omega
  have c4 : ¬ ((m2 : Int) < ((0 : Nat) : Int)) := by omega
  have c5 : ¬ (((23 : Nat) : Int) < (h1 : Int)) := by omega
  have c6 : ¬ (((23 : Nat) : Int) < (h2 : Int)) := by omega
  have c7 : ¬ (((59 : Nat) : Int) < (m1 : Int)) := by omega
  have c8 : ¬ (((59 : Nat) : Int) < (m2 : Int)) := by omega
  simp only [c1, c2, c3, c4, c5, c6, c7, c8, decide_False, Bool.not_true, Bool.or_self,
    Bool.false_eq_true, if_false]
  by_cases hle : h1 * 60 + m1 ≤ h2 * 60 + m2
  · have hlt : ¬ (((h2 * 60 + m2 : Nat) : Int) < ((h1 * 60 + m1 : Nat) : Int)) := by omega
    simp only [hlt, decide_False, Bool.false_eq_true, if_false, hle, if_true]
    rw [isInt_sub iE iS]
    have := isInt_div (fl_int_form (((h2 * 60 + m2 : Nat) : Int) - ((h1 * 60 + m1 : Nat) : Int))
      (by omega)) i60 (by norm_num)
    simpa using this
  · have hlt : (((h2 * 60 + m2 : Nat) : Int) < ((h1 * 60 + m1 : Nat) : Int)) := by omega
    simp only [hlt, decide_True, if_true, hle, if_false]
    have iE' : IsInt ((((JSNum.ofNat h2).mul (JSNum.ofNat 60)).add (JSNum.ofNat m2)).add
        ((JSNum.ofNat 24).mul (JSNum.ofNat 60))) (((h2 * 60 + m2 : Nat) : Int) + 1440) := by
      rw [isInt_add iE i1440]; exact fl_int_form _ (by omega)
    rw [isInt_sub iE' iS]
    have := isInt_div (fl_int_form (((h2 * 60 + m2 : Nat) : Int) + 1440 - ((h1 * 60 + m1 : Nat) : Int))
      (by omega)) i60 (by norm_num)
    simpa using this

theorem computeShiftDuration_out_of_range (h m : Nat) (t : JSString) (hh : h < 100)
    (hm : m < 100) (hbad : 23 < h ∨ 59 < m) :
    computeShiftDuration (.str (hhmm h m)) (.str t) = .nan ∧
    computeShiftDuration (.str t) (.str (hhmm h m)) = .nan := by
  have i23 := isInt_ofNat 23 (by norm_num)
  have i59 := isInt_ofNat 59 (by norm_num)
  have ih := isInt_ofNat h (by omega)
  have im := isInt_ofNat m (by omega)
  have s1 : slice (hhmm h m) 0 2 = [48 + h / 10, 48 + h % 10] := rfl
  have s2 : slice (hhmm h m) 3 5 = [48 + m / 10, 48 + m % 10] := rfl
  have l1 : (hhmm h m).length = 5 := rfl
  have g1 : (hhmm h m).get? 2 = some 58 := rfl
  have hrange : (JSNum.ofNat h).gt (JSNum.ofNat 23) = true ∨
      (JSNum.ofNat m).gt (JSNum.ofNat 59) = true := by
    rcases hbad with hb | hb
    · left; rw [isInt_gt ih i23]; simp only [decide_eq_true_eq]; omega
    · right; rw [isInt_gt im i59]; simp only [decide_eq_true_eq]; omega
  constructor
  · unfold computeShiftDuration
    simp only [l1, g1, s1, s2, stringToNumber_field h hh, stringToNumber_field m hm]
    split_ifs with a1 a2 a3 a4 a5 <;>
      first | rfl | (exfalso; rcases hrange with hr | hr <;> simp [hr] at a4)
  · unfold computeShiftDuration
    simp only [l1, g1, s1, s2, stringToNumber_field h hh, stringToNumber_field m hm]
    split_ifs with a1 a2 a3 a4 a5 <;>
      first | rfl | (exfalso; rcases hrange with hr | hr <;> simp [hr] at a4)

/-! ## The assignment validator: unfolding lemmas -/

theorem ofNat_zero : JSNum.ofNat 0 = .fin 0 0 := by decide


theorem totalHoursOn_foldl (date : JSString) (l : List Shift) (acc : JSNum) :
    l.foldl (fun totalHours sc =>
        if sc.date = date then totalHours.add (computeShiftDuration sc.startTime sc.endTime)
        else totalHours) acc
      = ((l.filter (fun sh => sh.date = date)).map Shift.hours).foldl JSNum.add acc := by
  induction l generalizing acc with
  | nil => rfl
  | cons sh t ih =>
    by_cases hd : sh.date = date
    · simp only [List.foldl_cons, hd, if_true, decide_True, List.filter_cons_of_pos,
        List.map_cons, ih, Shift.hours]
    · simp only [List.foldl_cons, hd, if_false, decide_False, Bool.false_eq_true,
        not_false_eq_true, List.filter_cons_of_neg, ih]

theorem totalHoursOn_eq_dayTotal (st : Store) (empId date : JSString) :
    totalHoursOn (getEmployeeShifts st empId) date = dayTotal st empId date := by
  unfold totalHoursOn dayTotal sumHours
  exact totalHoursOn_foldl date _ _

theorem assignShift_of_found {st : Store} {empId shiftId : JSString} {emp : Employee}
    {shift : Shift} (he : findEmployee st empId = some emp)
    (hs : findShift st shiftId = some shift) (ha : findAssignment st empId shiftId = none) :
    assignShift st empId shiftId =
      if !(Number st.config.maxDailyHours).isFinite ||
          (Number st.config.maxDailyHours).le (.ofNat 0) then (.invalidConfig, st)
      else if !shift.hours.isFinite || shift.hours.le (.ofNat 0) then (.invalidShiftTime, st)
      else if ((dayTotal st empId shift.date).add shift.hours).gt
          (Number st.config.maxDailyHours) then (.dailyCapExceeded, st)
      else (.ok, addAssignment st empId shiftId) := by
  simp only [assignShift, he, hs, ha, getConfig, totalHoursOn_eq_dayTotal, Shift.hours]

theorem assignShift_ok_inv {st : Store} {empId shiftId : JSString}
    (h : (assignShift st empId shiftId).1 = .ok) :
    ∃ emp shift, findEmployee st empId = some emp ∧ findShift st shiftId = some shift ∧
      findAssignment st empId shiftId = none ∧
      (Number st.config.maxDailyHours).isFinite = true ∧
      (Number st.config.maxDailyHours).le (.ofNat 0) = false ∧
      shift.hours.isFinite = true ∧ shift.hours.le (.ofNat 0) = false ∧
      ((dayTotal st empId shift.date).add shift.hours).gt (Number st.config.maxDailyHours)
        = false ∧
      assignShift st empId shiftId = (.ok, addAssignment st empId shiftId) := by
  cases he : findEmployee st empId with
  | none => simp [assignShift, he] at h
  | some emp =>
    cases hs : findShift st shiftId with
    | none => simp [assignShift, he, hs] at h
    | some shift =>
      cases ha : findAssignment st empId shiftId with
      | some a => simp [assignShift, he, hs, ha] at h
      | none =>
        rw [assignShift_of_found he hs ha] at h ⊢
        refine ⟨emp, shift, rfl, rfl, rfl, ?_⟩
        split_ifs at h ⊢ with c1 c2 c3
        simp only [Bool.or_eq_true, Bool.not_eq_true', not_or, Bool.not_eq_false,
          Bool.not_eq_true] at c1 c2 c3
        exact ⟨c1.1, c1.2, c2.1, c2.2, c3, rfl⟩

theorem add_nan_right (x : JSNum) : x.add .nan = .nan := by
  cases x <;> rfl

theorem foldl_add_nan (l : List JSNum) : l.foldl JSNum.add .nan = .nan := by
  induction l with
  | nil => rfl
  | cons x t ih => simpa [List.foldl_cons, JSNum.add] using ih

theorem foldl_add_of_mem_nan (l : List JSNum) (acc : JSNum) (h : JSNum.nan ∈ l) :
    l.foldl JSNum.add acc = .nan := by
  induction l generalizing acc with
  | nil => simp at h
  | cons x t ih =>
    rcases List.mem_cons.1 h with hx | ht
    · subst hx
      simp only [List.foldl_cons, add_nan_right, foldl_add_nan]
    · simp only [List.foldl_cons]
      exact ih _ ht

theorem findShift_some {st : Store} {s : JSString} {shift : Shift}
    (h : findShift st s = some shift) : shift ∈ st.shifts ∧ shift.shiftId = s := by
  unfold findShift at h
  refine ⟨List.mem_of_find?_eq_some h, ?_⟩
  simpa using List.find?_some h

theorem getEmployeeShifts_addAssignment (st : Store) (e s : JSString) :
    getEmployeeShifts (addAssignment st e s) e =
      st.shifts.filter (fun sh =>
        (((st.assignments.filter (fun a => a.employeeId = e)).map
          (fun a => a.shiftId)) ++ [s]).contains sh.shiftId) := by
  simp [getEmployeeShifts, addAssignment, List.filter_append]

theorem filter_shiftId_eq_singleton (l : List Shift) (s : JSString) (x : Shift)
    (hnd : (l.map (fun sh => sh.shiftId)).Nodup) (hx : x ∈ l) (hid : x.shiftId = s) :
    l.filter (fun sh => sh.shiftId = s) = [x] := by
  induction l with
  | nil => simp at hx
  | cons y t ih =>
    rw [List.map_cons, List.nodup_cons] at hnd
    obtain ⟨hy, hnd'⟩ := hnd
    rcases List.mem_cons.1 hx with hxy | hxt
    · subst hxy
      have hnone : t.filter (fun sh => sh.shiftId = s) = [] := by
        rw [List.filter_eq_nil_iff]
        intro z hz hzs
        apply hy
        rw [List.mem_map]
        exact ⟨z, hz, by simpa [hid] using hzs⟩
      simp [List.filter_cons, hid, hnone]
    · have hys : ¬ y.shiftId = s := by
        intro hys
        apply hy
        rw [List.mem_map]
        exact ⟨x, hxt, by rw [hid, hys]⟩
      simp only [List.filter_cons, hys, decide_False, Bool.false_eq_true, if_false]
      exact ih hnd' hxt

/-! ## Numbers that are not `NaN` -/

theorem pack_nonNeg (m : Nat) (u : Int) :
    NonNeg (if m = 0 then .fin 0 0 else if 971 < u then .inf false else .fin (m : Int) u) := by
  split_ifs
  · exact Or.inr ⟨0, 0, le_refl _, rfl⟩
  · exact Or.inl rfl
  · exact Or.inr ⟨_, _, Int.natCast_nonneg m, rfl⟩

theorem roundFrac_nonNeg (n d : Nat) : NonNeg (roundFrac false n d) := by
  unfold roundFrac
  by_cases hn : n = 0
  · simp only [hn, if_true]
    exact Or.inr ⟨0, 0, le_refl _, rfl⟩
  · simp only [hn, if_false, Bool.false_eq_true]
    exact pack_nonNeg _ _

theorem fl_nonNeg (z : Int) (d : Nat) (hz : 0 ≤ z) : NonNeg (fl z d) := by
  unfold fl
  have : decide (z < 0) = false := by simpa using hz
  rw [this]
  exact roundFrac_nonNeg _ _

theorem flScaled_nonNeg (s x : Int) (hs : 0 ≤ s) : NonNeg (flScaled s x) := by
  unfold flScaled
  split_ifs
  · exact fl_nonNeg _ _ (mul_nonneg hs (by positivity))
  · exact fl_nonNeg _ _ hs

theorem add_nonNeg {x y : JSNum} (hx : NonNeg x) (hy : NonNeg y) : NonNeg (x.add y) := by
  rcases hx with rfl | ⟨m, e, hm, rfl⟩ <;> rcases hy with rfl | ⟨m', e', hm', rfl⟩
  · exact Or.inl rfl
  · exact Or.inl rfl
  · exact Or.inl rfl
  · simp only [JSNum.add]
    apply flScaled_nonNeg
    unfold JSNum.scaleTo
    exact add_nonneg (mul_nonneg hm (by positivity)) (mul_nonneg hm' (by positivity))

theorem foldl_add_nonNeg (l : List JSNum) (acc : JSNum) (hacc : NonNeg acc)
    (hl : ∀ x ∈ l, NonNeg x) : NonNeg (l.foldl JSNum.add acc) := by
  induction l generalizing acc with
  | nil => exact hacc
  | cons x t ih =>
    simp only [List.foldl_cons]
    exact ih _ (add_nonNeg hacc (hl x (List.mem_cons_self _ _)))
      (fun y hy => hl y (List.mem_cons_of_mem _ hy))

theorem sumHours_nonNeg (l : List JSNum) (hl : ∀ x ∈ l, NonNeg x) : NonNeg (sumHours l) := by
  unfold sumHours
  exact foldl_add_nonNeg l _ (Or.inr ⟨0, 0, le_refl _, ofNat_zero⟩) hl

theorem le_of_not_gt {x y : JSNum} (hx : NonNeg x) (hy : y.isFinite = true)
    (h : x.gt y = false) : x.le y = true := by
  cases y with
  | nan => simp [JSNum.isFinite] at hy
  | inf n => simp [JSNum.isFinite] at hy
  | fin m' e' =>
    rcases hx with rfl | ⟨m, e, _, rfl⟩
    · simp [JSNum.gt, JSNum.lt] at h
    · simp only [JSNum.gt] at h
      simp [JSNum.le, h]

theorem isHHMM_elim {v : JSVal} (h : isHHMM v = true) :
    ∃ hr mn, hr < 24 ∧ mn < 60 ∧ v = .str (hhmm hr mn) := by
  unfold isHHMM at h
  split at h
  · rename_i a b c d
    simp only [isDecimalDigit, Bool.and_eq_true, decide_eq_true_eq] at h
    obtain ⟨⟨⟨⟨⟨⟨ha1, ha2⟩, hb1, hb2⟩, hc1, hc2⟩, hd1, hd2⟩, hh⟩, hm⟩ := h
    refine ⟨10 * (a - 48) + (b - 48), 10 * (c - 48) + (d - 48), by omega, by omega, ?_⟩
    unfold hhmm
    congr 2
    · omega
    · congr 1
      · omega
      · congr 2
        · omega
        · congr 1
          omega
  · simp at h

theorem hours_nonNeg_of_valid (sh : Shift) (h1 : isHHMM sh.startTime = true)
    (h2 : isHHMM sh.endTime = true) : NonNeg sh.hours := by
  obtain ⟨a, b, ha, hb, e1⟩ := isHHMM_elim h1
  obtain ⟨c, d, hc, hd, e2⟩ := isHHMM_elim h2
  unfold Shift.hours
  rw [e1, e2, computeShiftDuration_hhmm a b c d ha hb hc hd]
  split_ifs with hle
  · exact fl_nonNeg _ _ (by omega)
  · exact fl_nonNeg _ _ (by omega)

theorem not_mem_shiftIds_of_findAssignment_none {st : Store} {e s : JSString}
    (ha : findAssignment st e s = none) :
    s ∉ (st.assignments.filter (fun a => a.employeeId = e)).map (fun a => a.shiftId) := by
  intro hmem
  rw [List.mem_map] at hmem
  obtain ⟨a, hain, has⟩ := hmem
  rw [List.mem_filter] at hain
  unfold findAssignment at ha
  rw [List.find?_eq_none] at ha
  refine ha a hain.1 ?_
  simp only [decide_eq_true_eq]
  exact ⟨by simpa using hain.2, has⟩

theorem others_after_assignment (st : Store) (e s date : JSString)
    (ha : findAssignment st e s = none) :
    (getEmployeeShifts (addAssignment st e s) e).filter
        (fun sh => decide (sh.date = date) && !decide (sh.shiftId = s))
      = (getEmployeeShifts st e).filter (fun sh => sh.date = date) := by
  have hno := not_mem_shiftIds_of_findAssignment_none ha
  rw [getEmployeeShifts_addAssignment]
  unfold getEmployeeShifts
  simp only [List.filter_filter]
  apply List.filter_congr
  intro sh _
  by_cases hid : sh.shiftId = s
  · have : ¬ (s ∈ (st.assignments.filter (fun a => a.employeeId = e)).map
        (fun a => a.shiftId)) := hno
    simp [hid, this]
  · simp only [hid, decide_False, Bool.not_false, Bool.and_true, List.contains_eq_any_beq,
      List.any_append, List.any_cons, List.any_nil, Bool.or_false]
    have : (sh.shiftId == s) = false := by simpa using hid
    rw [this, Bool.or_false]

/-! ## Employee ids: decimal numerals and their `Number` value -/

theorem decimalValue_append_digit (ds : List Nat) (d : Nat) :
    decimalValue (ds ++ [48 + d]) = decimalValue ds * 10 + d := by
  simp [decimalValue, List.foldl_append]

theorem decimalDigits_spec : ∀ (fuel n : Nat), n < fuel →
    decimalValue (decimalDigits fuel n) = n ∧
      (∀ c ∈ decimalDigits fuel n, isDecimalDigit c = true) ∧ decimalDigits fuel n ≠ [] := by
  intro fuel
  induction fuel with
  | zero => intro n hn; omega
  | succ f ih =>
    intro n hn
    by_cases h10 : n < 10
    · simp only [decimalDigits, h10, if_true]
      refine ⟨by simp [decimalValue], ?_, by simp⟩
      intro c hc
      simp only [List.mem_singleton] at hc
      subst hc
      simp [isDecimalDigit]; omega
    · simp only [decimalDigits, h10, if_false]
      obtain ⟨h1, h2, _⟩ := ih (n / 10) (by omega)
      refine ⟨?_, ?_, by simp⟩
      · rw [decimalValue_append_digit, h1]; omega
      · intro c hc
        rcases List.mem_append.1 hc with hc | hc
        · exact h2 c hc
        · simp only [List.mem_singleton] at hc
          subst hc
          simp [isDecimalDigit]; omega

theorem decimalValue_zeros (k : Nat) (ds : List Nat) :
    decimalValue (List.replicate k 48 ++ ds) = decimalValue ds := by
  unfold decimalValue
  rw [List.foldl_append]
  congr 1
  induction k with
  | zero => rfl
  | succ k ih => simpa [List.replicate_succ] using ih

theorem digit_not_whiteSpace (c : Nat) (h : isDecimalDigit c = true) :
    isStrWhiteSpaceChar c = false := by
  simp only [isDecimalDigit, Bool.and_eq_true, decide_eq_true_eq] at h
  simp only [isStrWhiteSpaceChar, Bool.or_eq_false_iff, decide_eq_false_iff_not,
    Bool.and_eq_false_imp, decide_eq_true_eq]
  omega

theorem dropWhile_of_head (p : Nat → Bool) (a : Nat) (t : List Nat) (h : p a = false) :
    (a :: t).dropWhile p = a :: t := by
  simp [List.dropWhile_cons, h]

theorem trimWhiteSpace_digits (ds : List Nat) (hall : ∀ c ∈ ds, isDecimalDigit c = true) :
    trimWhiteSpace ds = ds := by
  unfold trimWhiteSpace
  cases ds with
  | nil => rfl
  | cons a t =>
    rw [dropWhile_of_head _ a t (digit_not_whiteSpace a (hall a (List.mem_cons_self _ _)))]
    cases hr : (a :: t).reverse with
    | nil => simp at hr
    | cons b u =>
      have hb : b ∈ a :: t := by
        rw [← List.mem_reverse, hr]; exact List.mem_cons_self _ _
      rw [dropWhile_of_head _ b u (digit_not_whiteSpace b (hall b hb)), ← hr,
        List.reverse_reverse]

theorem strUnsignedDecimalLiteral_digits (ds : List Nat)
    (hall : ∀ c ∈ ds, isDecimalDigit c = true) (hne : ds ≠ []) :
    strUnsignedDecimalLiteral false ds = roundFrac false (decimalValue ds) 1 := by
  have hinf : ds ≠ [73, 110, 102, 105, 110, 105, 116, 121] := by
    intro h
    have := hall 73 (by rw [h]; exact List.mem_cons_self _ _)
    simp [isDecimalDigit] at this
  have htake : ds.takeWhile isDecimalDigit = ds := by
    rw [List.takeWhile_eq_self_iff]; exact hall
  have hdrop : ds.dropWhile isDecimalDigit = [] := by
    rw [List.dropWhile_eq_nil_iff]; exact hall
  unfold strUnsignedDecimalLiteral
  simp [hinf, htake, hdrop, hne, exponentPart]

theorem stringToNumber_digits (ds : List Nat) (hall : ∀ c ∈ ds, isDecimalDigit c = true)
    (hne : ds ≠ []) : stringToNumber ds = roundFrac false (decimalValue ds) 1 := by
  have hdec : strDecimalLiteral ds = roundFrac false (decimalValue ds) 1 := by
    unfold strDecimalLiteral
    split
    · have := hall 43 (List.mem_cons_self _ _); simp [isDecimalDigit] at this
    · have := hall 45 (List.mem_cons_self _ _); simp [isDecimalDigit] at this
    · exact strUnsignedDecimalLiteral_digits ds hall hne
  unfold stringToNumber
  rw [trimWhiteSpace_digits ds hall]
  split
  · exact absurd rfl hne
  · rename_i p t
    have hp := hall p (List.mem_cons_of_mem _ (List.mem_cons_self _ _))
    simp only [isDecimalDigit, Bool.and_eq_true, decide_eq_true_eq] at hp
    have h1 : ¬ (p = 120 ∨ p = 88) := by omega
    have h2 : ¬ (p = 111 ∨ p = 79) := by omega
    have h3 : ¬ (p = 98 ∨ p = 66) := by omega
    simp only [h1, h2, h3, if_false]
    exact hdec
  · exact hdec

theorem roundFrac_false_eq_ofNat (n : Nat) : roundFrac false n 1 = JSNum.ofNat n := by
  unfold JSNum.ofNat fl
  have hneg : decide ((n : Int) < 0) = false := by
    rw [decide_eq_false_iff_not]; omega
  rw [hneg, Int.natAbs_ofNat]

theorem stringToNumber_suffix (employeeId : JSString) (h : HasNumericSuffix employeeId) :
    stringToNumber (employeeId.drop 1) = JSNum.ofNat (numericSuffix employeeId) := by
  rw [stringToNumber_digits _ h.2 h.1, roundFrac_false_eq_ofNat]
  rfl

theorem employeeIdOf_suffix (n : Nat) :
    HasNumericSuffix (employeeIdOf n) ∧ numericSuffix (employeeIdOf n) = n := by
  obtain ⟨h1, h2, h3⟩ := decimalDigits_spec (n + 1) n (Nat.lt_succ_self n)
  have hd : (employeeIdOf n).drop 1 = padStart (decimalString n) 3 48 := rfl
  unfold HasNumericSuffix numericSuffix
  rw [hd]
  refine ⟨⟨?_, ?_⟩, ?_⟩
  · unfold padStart
    intro h
    exact h3 (List.append_eq_nil.1 h).2
  · intro c hc
    unfold padStart at hc
    rcases List.mem_append.1 hc with hc | hc
    · rw [List.eq_of_mem_replicate hc]; decide
    · exact h2 c hc
  · unfold padStart
    rw [decimalValue_zeros]; exact h1

theorem numberToString_two_pow_53 (other : JSNum → JSString) :
    numberToString other (JSNum.ofNat (2 ^ 53)) = decimalString (2 ^ 53) := by
  have h : JSNum.ofNat (2 ^ 53) = .fin (2 ^ 52) 1 := by decide
  have hc : (JSNum.fin (2 ^ 52) 1).isInteger = true ∧
      (JSNum.fin (2 ^ 52) 1).toInt.natAbs ≤ 2 ^ 53 := by decide
  have hv : (if (JSNum.fin (2 ^ 52) 1).toInt < 0 then [45] else []) ++
      decimalString (JSNum.fin (2 ^ 52) 1).toInt.natAbs = decimalString (2 ^ 53) := by decide
  rw [h]
  simp only [numberToString]
  rw [if_pos hc, hv]

theorem numberToString_ofNat (other : JSNum → JSString) (k : Nat) (hk : k ≤ 2 ^ 53) :
    numberToString other (JSNum.ofNat k) = decimalString k := by
  rcases Nat.lt_or_ge k (2 ^ 53) with hlt | hge
  · have hi := isInt_ofNat k hlt
    have h1 := isInt_isInteger hi
    have h2 := isInt_toInt hi
    obtain ⟨j, hj⟩ := hi
    rw [hj] at h1 h2 ⊢
    unfold numberToString
    simp only [h1, h2, Int.natAbs_ofNat, hk, and_self, if_true]
    have : ¬ ((k : Int) < 0) := by omega
    simp [this]
  · have hk' : k = 2 ^ 53 := le_antisymm hk hge
    rw [hk']
    exact numberToString_two_pow_53 other

theorem foldl_max_mem (ns : List Nat) (a : Nat) :
    ns.foldl max a = a ∨ ns.foldl max a ∈ ns := by
  induction ns generalizing a with
  | nil => exact Or.inl rfl
  | cons n t ih =>
    simp only [List.foldl_cons]
    rcases ih (max a n) with h | h
    · rcases le_total a n with hle | hle
      · rw [h, max_eq_right hle]; exact Or.inr (List.mem_cons_self _ _)
      · rw [h, max_eq_left hle]; exact Or.inl rfl
    · exact Or.inr (List.mem_cons_of_mem _ h)

theorem maxEmployeeNumber_foldl (employees : List Employee) (a : Nat) (ha : a < 2 ^ 53)
    (hsuf : ∀ x ∈ employees, HasNumericSuffix x.employeeId ∧
      numericSuffix x.employeeId < 2 ^ 53) :
    employees.foldl
        (fun maxId emp =>
          let eid := stringToNumber (emp.employeeId.drop 1)
          if eid.gt maxId then eid else maxId)
        (JSNum.ofNat a)
      = JSNum.ofNat ((employees.map (fun x => numericSuffix x.employeeId)).foldl max a) := by
  induction employees generalizing a with
  | nil => rfl
  | cons emp rest ih =>
    obtain ⟨hs, hn⟩ := hsuf emp (List.mem_cons_self _ _)
    simp only [List.foldl_cons, List.map_cons, stringToNumber_suffix _ hs,
      isInt_gt (isInt_ofNat _ hn) (isInt_ofNat a ha), decide_eq_true_eq, Nat.cast_lt]
    have hstep : (if a < numericSuffix emp.employeeId then JSNum.ofNat (numericSuffix emp.employeeId)
        else JSNum.ofNat a) = JSNum.ofNat (max a (numericSuffix emp.employeeId)) := by
      by_cases h : a < numericSuffix emp.employeeId
      · rw [if_pos h, max_eq_right (le_of_lt h)]
      · rw [if_neg h, max_eq_left (not_lt.1 h)]
    rw [hstep]
    exact ih (max a (numericSuffix emp.employeeId)) (max_lt ha hn)
      (fun x hx => hsuf x (List.mem_cons_of_mem _ hx))

theorem addEmployeeRecord_of_suffixes (other : JSNum → JSString) (employees : List Employee)
    (emp : Employee)
    (hsuf : ∀ x ∈ employees, HasNumericSuffix x.employeeId ∧
      numericSuffix x.employeeId < 2 ^ 53) :
    addEmployeeRecord other employees emp =
      employees ++ [{ emp with employeeId := employeeIdOf (maxSuffix employees + 1) }] := by
  have hmax : maxSuffix employees < 2 ^ 53 := by
    unfold maxSuffix
    rcases foldl_max_mem (employees.map (fun x => numericSuffix x.employeeId)) 0 with h | h
    · rw [h]; norm_num
    · rw [List.mem_map] at h
      obtain ⟨x, hx, hxe⟩ := h
      rw [← hxe]
      exact (hsuf x hx).2
  have h1 : maxEmployeeNumber employees = JSNum.ofNat (maxSuffix employees) := by
    unfold maxEmployeeNumber maxSuffix
    exact maxEmployeeNumber_foldl employees 0 (by norm_num) hsuf
  have h2 : (JSNum.ofNat (maxSuffix employees)).add (JSNum.ofNat 1)
      = JSNum.ofNat (maxSuffix employees + 1) := by
    rw [isInt_add (isInt_ofNat _ hmax) (isInt_ofNat 1 (by norm_num))]
    unfold JSNum.ofNat
    push_cast
    rfl
  unfold addEmployeeRecord
  simp only [h1, h2, numberToString_ofNat other _ (Nat.succ_le_of_lt hmax)]
  rfl

/-! ## The duration calculator -/

/-- C1: for all well-formed times `h1:m1` and `h2:m2` (two digits, colon, two digits, hour
below 24, minute below 60), `computeShiftDuration` returns the quotient `(E - S) / 60` when
`E ≥ S` and `(E + 1440 - S) / 60` when `E < S`, with `S = h1*60+m1` and `E = h2*60+m2`;
`09:00`-`17:00` gives 8, the overnight `22:00`-`06:00` gives 8, `09:30`-`17:00` gives 7.5,
and equal start and end give 0.  The quotient `fl k 60` is the binary64 value nearest to
`k / 60`, which is what the Number division `k / 60` returns (last conjunct). -/
theorem computeShiftDuration_formula :
    (∀ h1 m1 h2 m2 : Nat, h1 < 24 → m1 < 60 → h2 < 24 → m2 < 60 →
      computeShiftDuration (.str (hhmm h1 m1)) (.str (hhmm h2 m2)) =
        if h1 * 60 + m1 ≤ h2 * 60 + m2
        then fl (((h2 * 60 + m2 : Nat) : Int) - ((h1 * 60 + m1 : Nat) : Int)) 60
        else fl (((h2 * 60 + m2 : Nat) : Int) + 1440 - ((h1 * 60 + m1 : Nat) : Int)) 60) ∧
    computeShiftDuration (.str (utf16 "09:00")) (.str (utf16 "17:00")) = JSNum.ofNat 8 ∧
    computeShiftDuration (.str (utf16 "22:00")) (.str (utf16 "06:00")) = JSNum.ofNat 8 ∧
    computeShiftDuration (.str (utf16 "09:30")) (.str (utf16 "17:00")) = fl 15 2 ∧
    (∀ h m : Nat, h < 24 → m < 60 →
      computeShiftDuration (.str (hhmm h m)) (.str (hhmm h m)) = JSNum.ofNat 0) ∧
    (∀ k : Nat, k < 2 ^ 53 → fl (k : Int) 60 = (JSNum.ofNat k).div (JSNum.ofNat 60)) := by
  refine ⟨computeShiftDuration_hhmm, by decide, by decide, by decide, ?_, ?_⟩
  · intro h m hh hm
    rw [computeShiftDuration_hhmm h m h m hh hm hh hm]
    simp only [le_refl, if_true, sub_self]
    decide
  · intro k hk
    rw [isInt_div (isInt_ofNat k hk) (isInt_ofNat 60 (by norm_num)) (by norm_num)]
    rfl

/-- C1 at `09:30`-`17:00`: the formula gives `450 / 60`, which is 7.5. -/
theorem computeShiftDuration_formula_witness :
    computeShiftDuration (.str (hhmm 9 30)) (.str (hhmm 17 0)) = fl 450 60 ∧
    hhmm 9 30 = utf16 "09:30" ∧ hhmm 17 0 = utf16 "17:00" ∧ fl 450 60 = fl 15 2 :=
  ⟨computeShiftDuration_formula.1 9 30 17 0 (by decide) (by decide) (by decide) (by decide),
    by decide, by decide, by decide⟩

/-- C2, at the failing inputs: a five-unit time whose hour or minute field is padded with
white space, a sign or a point is accepted, because `Number` accepts the padded field
(`" 9:00"`-`"17:00"` gives 8 hours).  The other malformed inputs are rejected: a
non-string, a length other than 5, a missing colon, and a two-digit hour above 23 or minute
above 59 all give `NaN`. -/
theorem computeShiftDuration_padded_field :
    computeShiftDuration (.str (utf16 " 9:00")) (.str (utf16 "17:00")) = JSNum.ofNat 8 ∧
    computeShiftDuration (.str (utf16 "+9:00")) (.str (utf16 "17:00")) = JSNum.ofNat 8 ∧
    computeShiftDuration (.str (utf16 "9 :00")) (.str (utf16 "17: 0")) = JSNum.ofNat 8 ∧
    computeShiftDuration (.str (utf16 "9.:00")) (.str (utf16 "17:.0")) = JSNum.ofNat 8 ∧
    computeShiftDuration (.str (utf16 "  :  ")) (.str (utf16 "-0:30")) = fl 1 2 ∧
    computeShiftDuration (.str (utf16 "9:00")) (.str (utf16 "17:00")) = .nan ∧
    computeShiftDuration (.str (utf16 "25:00")) (.str (utf16 "01:00")) = .nan ∧
    (∀ s e : JSVal, (∀ t, s ≠ .str t) ∨ (∀ t, e ≠ .str t) → computeShiftDuration s e = .nan) ∧
    (∀ s e : JSString, s.length ≠ 5 ∨ e.length ≠ 5 →
      computeShiftDuration (.str s) (.str e) = .nan) ∧
    (∀ s e : JSString, s.get? 2 ≠ some 58 ∨ e.get? 2 ≠ some 58 →
      computeShiftDuration (.str s) (.str e) = .nan) ∧
    (∀ (h m : Nat) (t : JSString), h < 100 → m < 100 → 23 < h ∨ 59 < m →
      computeShiftDuration (.str (hhmm h m)) (.str t) = .nan ∧
      computeShiftDuration (.str t) (.str (hhmm h m)) = .nan) := by
  refine ⟨by decide, by decide, by decide, by decide, by decide, by decide, by decide,
    ?_, ?_, ?_, ?_⟩
  · intro s e h
    cases s <;> cases e <;> first | rfl | (rcases h with h | h <;> exact absurd rfl (h _))
  · intro s e h
    simp only [computeShiftDuration, h, if_true]
  · intro s e h
    unfold computeShiftDuration
    by_cases hl : s.length ≠ 5 ∨ e.length ≠ 5
    · simp only [hl, if_true]
    · simp only [hl, if_false, h, if_true]
  · intro h m t hh hm hbad
    exact computeShiftDuration_out_of_range h m t hh hm hbad

/-! ## The assignment validator -/

/-- C3: when steps 1-5 of `assignShift` pass (the employee and the shift exist, the pair
is not yet assigned, `maxDailyHours` is a finite positive number and the candidate's
duration `c` is finite and positive), the result is the daily-cap failure if and only if
`T + c > maxDailyHours`, and `Ok` otherwise, where `T` is the sum of the durations of the
shifts already assigned to the employee on the candidate's date.  The comparison is
strict: with cap 8 and a 5-hour shift already held, a 3-hour candidate succeeds and a
3.5-hour candidate fails. -/
theorem assignShift_daily_cap :
    (∀ (st : Store) (e s : JSString) (emp : Employee) (shift : Shift),
      findEmployee st e = some emp → findShift st s = some shift →
      findAssignment st e s = none →
      (Number st.config.maxDailyHours).isFinite = true →
      (JSNum.ofNat 0).lt (Number st.config.maxDailyHours) = true →
      shift.hours.isFinite = true → (JSNum.ofNat 0).lt shift.hours = true →
      ((assignShift st e s).1 = .dailyCapExceeded ↔
          ((dayTotal st e shift.date).add shift.hours).gt (Number st.config.maxDailyHours)
            = true) ∧
        (((dayTotal st e shift.date).add shift.hours).gt (Number st.config.maxDailyHours)
            = false → (assignShift st e s).1 = .ok)) ∧
    dayTotal capStore (utf16 "E001") (utf16 "2025-01-06") = JSNum.ofNat 5 ∧
    (mkShift "S2" "2025-01-06" "14:00" "17:00").hours = JSNum.ofNat 3 ∧
    assignShift capStore (utf16 "E001") (utf16 "S2")
      = (.ok, addAssignment capStore (utf16 "E001") (utf16 "S2")) ∧
    (mkShift "S3" "2025-01-06" "14:00" "17:30").hours = fl 7 2 ∧
    assignShift capStore (utf16 "E001") (utf16 "S3") = (.dailyCapExceeded, capStore) := by
  refine ⟨?_, by decide, by decide, by decide, by decide, by decide⟩
  intro st e s emp shift he hs ha hfin hpos hcfin hcpos
  have hle : (Number st.config.maxDailyHours).le (JSNum.ofNat 0) = false := by
    cases hx : Number st.config.maxDailyHours with
    | nan => rw [hx] at hfin; simp [JSNum.isFinite] at hfin
    | inf n => rw [hx] at hfin; simp [JSNum.isFinite] at hfin
    | fin m x => rw [hx, ofNat_zero] at hpos; simp [JSNum.le, ofNat_zero, hpos]
  have hcle : shift.hours.le (JSNum.ofNat 0) = false := by
    cases hx : shift.hours with
    | nan => rw [hx] at hcfin; simp [JSNum.isFinite] at hcfin
    | inf n => rw [hx] at hcfin; simp [JSNum.isFinite] at hcfin
    | fin m x => rw [hx, ofNat_zero] at hcpos; simp [JSNum.le, ofNat_zero, hcpos]
  rw [assignShift_of_found he hs ha]
  simp only [hfin, hle, hcfin, hcle, Bool.not_true, Bool.or_self, Bool.false_eq_true, if_false]
  constructor
  · constructor
    · intro h
      by_contra hgt
      simp [hgt] at h
    · intro h
      simp [h]
  · intro h
    simp [h]

/-- C3 at `capStore`: the 3-hour shift `S2` is not refused for the daily cap. -/
theorem assignShift_daily_cap_witness :
    ((assignShift capStore (utf16 "E001") (utf16 "S2")).1 = .dailyCapExceeded ↔
      ((dayTotal capStore (utf16 "E001") (utf16 "2025-01-06")).add
        (mkShift "S2" "2025-01-06" "14:00" "17:00").hours).gt (JSNum.ofNat 8) = true) :=
  (assignShift_daily_cap.1 capStore (utf16 "E001") (utf16 "S2")
    { employeeId := utf16 "E001", name := utf16 "Amal", phone := utf16 "5550001" }
    (mkShift "S2" "2025-01-06" "14:00" "17:00")
    (by decide) (by decide) (by decide) (by decide) (by decide) (by decide) (by decide)).1

/-- C6: the first three checks of `assignShift` short-circuit in order.  With no employee
of id `e` the result is the employee-not-found failure, whatever the shift; with an
employee of id `e` and no shift of id `s` it is the shift-not-found failure, even if an
assignment record `(e, s)` exists; with both present and an assignment record `(e, s)` it
is the already-assigned failure, whatever the config and the times. -/
theorem assignShift_short_circuit (st : Store) (e s : JSString) :
    ((∀ emp ∈ st.employees, emp.employeeId ≠ e) →
      (assignShift st e s).1 = .employeeNotFound) ∧
    ((∃ emp ∈ st.employees, emp.employeeId = e) → (∀ sh ∈ st.shifts, sh.shiftId ≠ s) →
      (assignShift st e s).1 = .shiftNotFound) ∧
    ((∃ emp ∈ st.employees, emp.employeeId = e) → (∃ sh ∈ st.shifts, sh.shiftId = s) →
      ({ employeeId := e, shiftId := s } : Assignment) ∈ st.assignments →
      (assignShift st e s).1 = .alreadyAssigned) := by
  have hfindE : (∃ emp ∈ st.employees, emp.employeeId = e) →
      ∃ emp, findEmployee st e = some emp := by
    rintro ⟨emp, hmem, hid⟩
    cases h : findEmployee st e with
    | some x => exact ⟨x, rfl⟩
    | none =>
      unfold findEmployee at h
      rw [List.find?_eq_none] at h
      exact absurd (by simpa using hid) (h emp hmem)
  have hfindS : (∃ sh ∈ st.shifts, sh.shiftId = s) → ∃ sh, findShift st s = some sh := by
    rintro ⟨sh, hmem, hid⟩
    cases h : findShift st s with
    | some x => exact ⟨x, rfl⟩
    | none =>
      unfold findShift at h
      rw [List.find?_eq_none] at h
      exact absurd (by simpa using hid) (h sh hmem)
  refine ⟨?_, ?_, ?_⟩
  · intro hno
    have h : findEmployee st e = none := by
      unfold findEmployee
      rw [List.find?_eq_none]
      intro x hx
      simpa using hno x hx
    simp [assignShift, h]
  · intro hex hno
    obtain ⟨emp, he⟩ := hfindE hex
    have h : findShift st s = none := by
      unfold findShift
      rw [List.find?_eq_none]
      intro x hx
      simpa using hno x hx
    simp [assignShift, he, h]
  · intro hex hsx hmem
    obtain ⟨emp, he⟩ := hfindE hex
    obtain ⟨sh, hs⟩ := hfindS hsx
    cases ha : findAssignment st e s with
    | some a => simp [assignShift, he, hs, ha]
    | none =>
      unfold findAssignment at ha
      rw [List.find?_eq_none] at ha
      exact absurd (by simp) (ha _ hmem)

/-- C6 at `capStore`: the unknown employee `E999` is refused first, though `S1` exists. -/
theorem assignShift_short_circuit_witness :
    (assignShift capStore (utf16 "E999") (utf16 "S1")).1 = .employeeNotFound :=
  (assignShift_short_circuit capStore (utf16 "E999") (utf16 "S1")).1 (by decide)

/-- C7: `assignShift` changes the store only on success.  On any failure the four
collections are unchanged; on `Ok` the assignments are the previous ones with exactly the
record `{employeeId: e, shiftId: s}` appended, and employees, shifts and config are
unchanged. -/
theorem assignShift_frame (st : Store) (e s : JSString) :
    ((assignShift st e s).1 ≠ .ok → (assignShift st e s).2 = st) ∧
    ((assignShift st e s).1 = .ok →
      (assignShift st e s).2 =
        { employees := st.employees, shifts := st.shifts,
          assignments := st.assignments ++ [{ employeeId := e, shiftId := s }],
          config := st.config }) := by
  constructor
  · intro h
    cases he : findEmployee st e with
    | none => simp [assignShift, he]
    | some emp =>
      cases hs : findShift st s with
      | none => simp [assignShift, he, hs]
      | some shift =>
        cases ha : findAssignment st e s with
        | some a => simp [assignShift, he, hs, ha]
        | none =>
          rw [assignShift_of_found he hs ha] at h ⊢
          split_ifs at h ⊢ <;> first | rfl | exact absurd rfl h
  · intro h
    obtain ⟨_, _, _, _, _, _, _, _, _, _, heq⟩ := assignShift_ok_inv h
    rw [heq]
    rfl

/-- C7 at `capStore`: the refused duplicate assignment `(E001, S1)` leaves the store as it
was. -/
theorem assignShift_frame_witness :
    (assignShift capStore (utf16 "E001") (utf16 "S1")).1 = .alreadyAssigned ∧
    (assignShift capStore (utf16 "E001") (utf16 "S1")).2 = capStore :=
  ⟨by decide, (assignShift_frame capStore (utf16 "E001") (utf16 "S1")).1 (by decide)⟩

/-- C5, at the failing input: in `malformedStore` the employee holds a well-formed 5-hour
shift and a malformed shift on the candidate's date, the cap is 8 and the candidate lasts
3.5 hours, so `W + c > maxDailyHours`, yet `assignShift` returns `Ok` and writes the
assignment.  In general, once steps 1-5 pass, a same-date shift of the employee whose
duration is `NaN` makes the running total `NaN` and the result `Ok`, whatever the cap. -/
theorem assignShift_malformed_stored_shift :
    wellFormedDayTotal malformedStore (utf16 "E001") (utf16 "2025-01-06") = JSNum.ofNat 5 ∧
    (mkShift "S3" "2025-01-06" "14:00" "17:30").hours = fl 7 2 ∧
    ((JSNum.ofNat 5).add (fl 7 2)).gt (Number malformedStore.config.maxDailyHours) = true ∧
    dayTotal malformedStore (utf16 "E001") (utf16 "2025-01-06") = .nan ∧
    assignShift malformedStore (utf16 "E001") (utf16 "S3")
      = (.ok, addAssignment malformedStore (utf16 "E001") (utf16 "S3")) ∧
    (∀ (st : Store) (e s : JSString) (emp : Employee) (shift : Shift),
      findEmployee st e = some emp → findShift st s = some shift →
      findAssignment st e s = none →
      (Number st.config.maxDailyHours).isFinite = true →
      (Number st.config.maxDailyHours).le (JSNum.ofNat 0) = false →
      shift.hours.isFinite = true → shift.hours.le (JSNum.ofNat 0) = false →
      (∃ sh ∈ getEmployeeShifts st e, sh.date = shift.date ∧ sh.hours = .nan) →
      (assignShift st e s).1 = .ok) := by
  refine ⟨by decide, by decide, by decide, by decide, by decide, ?_⟩
  intro st e s emp shift he hs ha hfin hle hcfin hcle hbad
  obtain ⟨sh, hmem, hdate, hnan⟩ := hbad
  have hT : dayTotal st e shift.date = .nan := by
    unfold dayTotal sumHours
    apply foldl_add_of_mem_nan
    rw [List.mem_map]
    exact ⟨sh, List.mem_filter.2 ⟨hmem, by simpa using hdate⟩, hnan⟩
  rw [assignShift_of_found he hs ha]
  simp only [hfin, hle, hcfin, hcle, hT, Bool.not_true, Bool.or_self, Bool.false_eq_true,
    if_false]
  cases hx : Number st.config.maxDailyHours <;> simp [JSNum.add, JSNum.gt, JSNum.lt]

/-- C8, refuted as stated: in `duplicateIdStore` two shift records carry the id `S1`;
assigning `S1` to `E001` returns `Ok`, and the schedule then holds two shifts of id `S1`. -/
theorem schedule_lists_duplicate_id_twice :
    (assignShift duplicateIdStore (utf16 "E001") (utf16 "S1")).1 = .ok ∧
    ((getScheduleForEmployee (assignShift duplicateIdStore (utf16 "E001") (utf16 "S1")).2
      (utf16 "E001")).filter (fun sh => sh.shiftId = utf16 "S1")).length = 2 := by
  constructor <;> decide

/-- C8, amended: when the shift ids of the store are unique and `assignShift(e, s)` returns
`Ok`, the schedule of `e` in the resulting store holds exactly one shift of id `s`, the
shift that `findShift(s)` finds. -/
theorem schedule_lists_new_shift_once (st : Store) (e s : JSString)
    (hnodup : (st.shifts.map (fun sh => sh.shiftId)).Nodup)
    (hok : (assignShift st e s).1 = .ok) :
    ∃ shift, findShift st s = some shift ∧
      (getScheduleForEmployee (assignShift st e s).2 e).filter (fun sh => sh.shiftId = s)
        = [shift] := by
  obtain ⟨emp, shift, he, hs, ha, _, _, _, _, _, heq⟩ := assignShift_ok_inv hok
  obtain ⟨hmem, hid⟩ := findShift_some hs
  have hin : shift ∈ getScheduleForEmployee (assignShift st e s).2 e := by
    rw [heq]
    unfold getScheduleForEmployee
    rw [getEmployeeShifts_addAssignment]
    apply List.mem_filter.2
    refine ⟨hmem, ?_⟩
    simp [hid]
  have hsub : List.Sublist (getScheduleForEmployee (assignShift st e s).2 e) st.shifts := by
    rw [heq]
    unfold getScheduleForEmployee getEmployeeShifts
    exact List.filter_sublist _
  exact ⟨shift, hs, filter_shiftId_eq_singleton _ s shift
    (List.Nodup.sublist (List.Sublist.map _ hsub) hnodup) hin hid⟩

/-- C8 amended, at `capStore`: after `S2` is assigned to `E001` the schedule holds one
shift of id `S2`. -/
theorem schedule_lists_new_shift_once_witness :
    ∃ shift, findShift capStore (utf16 "S2") = some shift ∧
      (getScheduleForEmployee (assignShift capStore (utf16 "E001") (utf16 "S2")).2
        (utf16 "E001")).filter (fun sh => sh.shiftId = utf16 "S2") = [shift] :=
  schedule_lists_new_shift_once capStore (utf16 "E001") (utf16 "S2") (by decide) (by decide)

/-- C9, refuted as stated: with `maxDailyHours` the string `"8"` (not a number) the config
is accepted and the 5-hour shift `S1` is assigned; with `maxDailyHours` the boolean `true`
the config is accepted as the cap 1, so the refusal of `S1` is the daily-cap failure, not
the invalid-config failure. -/
theorem config_coerced_not_rejected :
    assignShift (configStore (.str (utf16 "8"))) (utf16 "E001") (utf16 "S1")
      = (.ok, addAssignment (configStore (.str (utf16 "8"))) (utf16 "E001") (utf16 "S1")) ∧
    (assignShift (configStore (.bool true)) (utf16 "E001") (utf16 "S1")).1
      = .dailyCapExceeded := by
  constructor <;> decide

/-- C9, amended: when steps 1-3 pass, `assignShift` returns the invalid-config failure
exactly when `Number(maxDailyHours)` is not finite or is at most 0, and then writes
nothing.  `Number` of a missing value is `NaN`, of `null` and `false` is 0, of `true` is 1,
of a string is its `StringToNumber` value (`"8"` is 8, `"abc"` is `NaN`, the empty string
is 0); so a missing value, `null`, `false`, a non-numeric or empty string, and a number
that is `NaN`, infinite, zero or negative are all rejected. -/
theorem assignShift_invalid_config :
    (∀ (st : Store) (e s : JSString) (emp : Employee) (shift : Shift),
      findEmployee st e = some emp → findShift st s = some shift →
      findAssignment st e s = none →
      ((assignShift st e s).1 = .invalidConfig ↔
        ((Number st.config.maxDailyHours).isFinite = false ∨
          (Number st.config.maxDailyHours).le (JSNum.ofNat 0) = true)) ∧
      ((assignShift st e s).1 = .invalidConfig → (assignShift st e s).2 = st)) ∧
    Number .undefined = .nan ∧ Number .null = JSNum.ofNat 0 ∧
    Number (.bool false) = JSNum.ofNat 0 ∧ Number (.bool true) = JSNum.ofNat 1 ∧
    (∀ x, Number (.num x) = x) ∧ (∀ t, Number (.str t) = stringToNumber t) ∧
    stringToNumber (utf16 "8") = JSNum.ofNat 8 ∧ stringToNumber (utf16 "abc") = .nan ∧
    stringToNumber (utf16 "") = JSNum.ofNat 0 ∧
    (JSNum.nan).isFinite = false ∧ (∀ n, (JSNum.inf n).isFinite = false) ∧
    (JSNum.ofNat 0).le (JSNum.ofNat 0) = true ∧ (JSNum.ofNat 1).le (JSNum.ofNat 0) = false ∧
    (∀ m x : Int, (JSNum.fin m x).le (JSNum.ofNat 0) = decide (m ≤ 0)) := by
  refine ⟨?_, rfl, by decide, by decide, rfl, fun _ => rfl, fun _ => rfl, by decide, by decide,
    by decide, rfl, fun _ => rfl, by decide, by decide, ?_⟩
  · intro st e s emp shift he hs ha
    rw [assignShift_of_found he hs ha]
    constructor
    · constructor
      · intro h
        split_ifs at h with c1
        simpa using c1
      · intro h
        have : (!(Number st.config.maxDailyHours).isFinite ||
            (Number st.config.maxDailyHours).le (JSNum.ofNat 0)) = true := by
          rcases h with h | h <;> simp [h]
        simp [this]
    · intro h
      split_ifs at h ⊢
      rfl
  · intro m x
    rw [ofNat_zero]
    simp only [JSNum.le, JSNum.lt, JSNum.scaleTo]
    by_cases hm : m ≤ 0
    · have : ¬ (0 * 2 ^ (0 - min 0 x).toNat < m * 2 ^ (x - min 0 x).toNat) := by
        rw [zero_mul, not_lt]
        exact mul_nonpos_of_nonpos_of_nonneg hm (by positivity)
      simp [hm, this]
    · have : (0 * 2 ^ (0 - min 0 x).toNat < m * 2 ^ (x - min 0 x).toNat) := by
        rw [zero_mul]
        exact mul_pos (not_le.1 hm) (by positivity)
      simp [hm, this, not_le.1 hm]

/-- C9 amended, at `configStore null`: `Number(null)` is 0, so the config is rejected and
the store is left as it was. -/
theorem assignShift_invalid_config_witness :
    (assignShift (configStore .null) (utf16 "E001") (utf16 "S1")).1 = .invalidConfig ∧
    (assignShift (configStore .null) (utf16 "E001") (utf16 "S1")).2 = configStore .null :=
  have h := assignShift_invalid_config.1 (configStore .null) (utf16 "E001") (utf16 "S1")
    { employeeId := utf16 "E001", name := utf16 "Amal", phone := utf16 "5550001" }
    (mkShift "S1" "2025-01-06" "09:00" "14:00") (by decide) (by decide) (by decide)
  ⟨h.1.2 (Or.inr (by decide)), h.2 (h.1.2 (Or.inr (by decide)))⟩

/-- C4, refuted as stated: `roundingStore` satisfies the data model, its cap is 8 and its
three shifts of one date last 66, 368 and 46 minutes.  `E001` holds the last two; the loop
of `assignShift` adds their hours first and the candidate last, which gives exactly 8, so
the assignment is accepted.  In the resulting store `getEmployeeShifts` returns the three
shifts in file order, and their hours summed in that order give 8.000000000000002, which
is above the cap. -/
theorem day_total_exceeds_cap_after_ok :
    DataModel roundingStore ∧
    findShift roundingStore (utf16 "S1") = some (mkShift "S1" "2025-01-06" "08:00" "09:06") ∧
    (assignShift roundingStore (utf16 "E001") (utf16 "S1")).1 = .ok ∧
    Number roundingStore.config.maxDailyHours = .fin (2 ^ 52) (-49) ∧
    dayTotal (assignShift roundingStore (utf16 "E001") (utf16 "S1")).2 (utf16 "E001")
      (utf16 "2025-01-06") = .fin (2 ^ 52 + 1) (-49) ∧
    (dayTotal (assignShift roundingStore (utf16 "E001") (utf16 "S1")).2 (utf16 "E001")
      (utf16 "2025-01-06")).le (Number roundingStore.config.maxDailyHours) = false := by
  refine ⟨⟨by decide, by decide⟩, by decide, by decide, by decide, by decide, by decide⟩

/-- C4, amended: when the store satisfies the data model and `assignShift(e, s)` returns
`Ok`, then in the resulting store the hours of the other shifts `getEmployeeShifts(e)`
returns for the date of shift `s`, summed in the order returned, plus the hours of shift
`s` added last, are at most `maxDailyHours`. -/
theorem assignShift_ok_within_cap (st : Store) (e s : JSString) (shift : Shift)
    (hdm : DataModel st) (hs : findShift st s = some shift)
    (hok : (assignShift st e s).1 = .ok) :
    ((sumHours (((getEmployeeShifts (assignShift st e s).2 e).filter
        (fun sh => decide (sh.date = shift.date) && !decide (sh.shiftId = s))).map
          Shift.hours)).add shift.hours).le (Number st.config.maxDailyHours) = true := by
  obtain ⟨emp, shift', he, hs', ha, hfin, _, _, _, hgt, heq⟩ := assignShift_ok_inv hok
  have hsh : shift' = shift := by
    rw [hs] at hs'
    exact (Option.some.inj hs').symm
  subst hsh
  rw [heq]
  simp only []
  rw [others_after_assignment st e s shift'.date ha]
  have hT : NonNeg (sumHours (((getEmployeeShifts st e).filter
      (fun sh => sh.date = shift'.date)).map Shift.hours)) := by
    apply sumHours_nonNeg
    intro x hx
    rw [List.mem_map] at hx
    obtain ⟨sh, hsh, rfl⟩ := hx
    have hmem : sh ∈ st.shifts := by
      have := (List.mem_filter.1 hsh).1
      unfold getEmployeeShifts at this
      exact (List.mem_filter.1 this).1
    exact hours_nonNeg_of_valid sh (hdm.2 sh hmem).1 (hdm.2 sh hmem).2
  have hc : NonNeg shift'.hours :=
    hours_nonNeg_of_valid shift' (hdm.2 shift' (findShift_some hs).1).1
      (hdm.2 shift' (findShift_some hs).1).2
  exact le_of_not_gt (add_nonNeg hT hc) hfin hgt

/-- C4 amended, at `roundingStore`: the hours of `S2` and `S3`, then those of the new
shift `S1`, add up to the cap and no more. -/
theorem assignShift_ok_within_cap_witness :
    ((sumHours (((getEmployeeShifts (assignShift roundingStore (utf16 "E001") (utf16 "S1")).2
        (utf16 "E001")).filter
        (fun sh => decide (sh.date = (mkShift "S1" "2025-01-06" "08:00" "09:06").date) &&
          !decide (sh.shiftId = utf16 "S1"))).map Shift.hours)).add
        (mkShift "S1" "2025-01-06" "08:00" "09:06").hours).le
      (Number roundingStore.config.maxDailyHours) = true :=
  assignShift_ok_within_cap roundingStore (utf16 "E001") (utf16 "S1")
    (mkShift "S1" "2025-01-06" "08:00" "09:06") ⟨by decide, by decide⟩ (by decide) (by decide)

/-! ## The employee store -/

/-- C10, refuted as stated: on the list that holds the single id `E9007199254740992`,
whose numeric suffix is `2^53`, `addEmployeeRecord` appends a record with the same id
`E9007199254740992`, not with `E9007199254740993`: `maxId + 1` is computed in binary64,
where `2^53 + 1` rounds back to `2^53`. -/
theorem addEmployeeRecord_repeats_large_id :
    HasNumericSuffix largeIdEmployee.employeeId ∧
    numericSuffix largeIdEmployee.employeeId = 2 ^ 53 ∧
    maxSuffix [largeIdEmployee] + 1 = 9007199254740993 ∧
    employeeIdOf 9007199254740993 = utf16 "E9007199254740993" ∧
    (JSNum.ofNat (2 ^ 53)).add (JSNum.ofNat 1) = JSNum.ofNat (2 ^ 53) ∧
    addEmployeeRecord (fun _ => []) [largeIdEmployee] newEmployee
      = [largeIdEmployee, { newEmployee with employeeId := utf16 "E9007199254740992" }] ∧
    addEmployeeRecord (fun _ => []) [largeIdEmployee] newEmployee
      ≠ [largeIdEmployee, { newEmployee with employeeId := utf16 "E9007199254740993" }] ∧
    (∀ other : JSNum → JSString,
      addEmployeeRecord other [largeIdEmployee] newEmployee
        = addEmployeeRecord (fun _ => []) [largeIdEmployee] newEmployee) := by
  refine ⟨⟨by decide, by decide⟩, by decide, by decide, by decide, by decide, by decide,
    by decide, ?_⟩
  intro other
  have hmax : maxEmployeeNumber [largeIdEmployee] = JSNum.ofNat (2 ^ 53) := by decide
  have hadd : (JSNum.ofNat (2 ^ 53)).add (JSNum.ofNat 1) = JSNum.ofNat (2 ^ 53) := by decide
  unfold addEmployeeRecord
  simp only [hmax, hadd, numberToString_two_pow_53]

/-- C10, amended: for every employee list in which each id is one code unit followed by
decimal digits of value below `2^53` (the data-model ids `E001`, `E002`, ... are of this
kind), `addEmployeeRecord` appends exactly one record, the given employee with the id `E`
followed by (the largest numeric suffix among the existing ids, plus 1) zero-padded to
three digits, and leaves the existing records unchanged and in order; on the empty list
the new id is `E001`, and when the highest existing id is `E007` the new id is `E008`. -/
theorem addEmployeeRecord_next_id :
    (∀ (other : JSNum → JSString) (employees : List Employee) (emp : Employee),
      (∀ x ∈ employees, HasNumericSuffix x.employeeId ∧ numericSuffix x.employeeId < 2 ^ 53) →
      addEmployeeRecord other employees emp =
        employees ++ [{ emp with employeeId := employeeIdOf (maxSuffix employees + 1) }]) ∧
    (∀ n : Nat, HasNumericSuffix (employeeIdOf n) ∧ numericSuffix (employeeIdOf n) = n) ∧
    (∀ (other : JSNum → JSString) (emp : Employee),
      addEmployeeRecord other [] emp = [{ emp with employeeId := utf16 "E001" }]) ∧
    (∀ (other : JSNum → JSString) (emp a b c : Employee),
      a.employeeId = utf16 "E003" → b.employeeId = utf16 "E007" →
      c.employeeId = utf16 "E005" →
      addEmployeeRecord other [a, b, c] emp
        = [a, b, c, { emp with employeeId := utf16 "E008" }]) ∧
    employeeIdOf 1 = utf16 "E001" ∧ employeeIdOf 8 = utf16 "E008" ∧
    employeeIdOf 42 = utf16 "E042" ∧ employeeIdOf 1000 = utf16 "E1000" ∧
    employeeIdOf (2 ^ 53) = utf16 "E9007199254740992" := by
  refine ⟨addEmployeeRecord_of_suffixes, employeeIdOf_suffix, ?_, ?_,
    by decide, by decide, by decide, by decide, by decide⟩
  · intro other emp
    rw [addEmployeeRecord_of_suffixes other [] emp (by simp)]
    have : employeeIdOf (maxSuffix [] + 1) = utf16 "E001" := by decide
    rw [this]
    rfl
  · intro other emp a b c ha hb hc
    have e3 : utf16 "E003" = employeeIdOf 3 := by decide
    have e7 : utf16 "E007" = employeeIdOf 7 := by decide
    have e5 : utf16 "E005" = employeeIdOf 5 := by decide
    rw [e3] at ha
    rw [e7] at hb
    rw [e5] at hc
    have hsuf : ∀ x ∈ [a, b, c], HasNumericSuffix x.employeeId ∧
        numericSuffix x.employeeId < 2 ^ 53 := by
      intro x hx
      simp only [List.mem_cons, List.mem_singleton, List.not_mem_nil, or_false] at hx
      rcases hx with rfl | rfl | rfl
      · rw [ha]; exact ⟨(employeeIdOf_suffix 3).1, by rw [(employeeIdOf_suffix 3).2]; norm_num⟩
      · rw [hb]; exact ⟨(employeeIdOf_suffix 7).1, by rw [(employeeIdOf_suffix 7).2]; norm_num⟩
      · rw [hc]; exact ⟨(employeeIdOf_suffix 5).1, by rw [(employeeIdOf_suffix 5).2]; norm_num⟩
    rw [addEmployeeRecord_of_suffixes other [a, b, c] emp hsuf]
    have hm : maxSuffix [a, b, c] = 7 := by
      unfold maxSuffix
      simp only [List.map_cons, List.map_nil, ha, hb, hc, (employeeIdOf_suffix 3).2,
        (employeeIdOf_suffix 7).2, (employeeIdOf_suffix 5).2]
      decide
    rw [hm]
    have : employeeIdOf (7 + 1) = utf16 "E008" := by decide
    rw [this]
    rfl

/-- C10 amended, at the list holding `E007` alone: the new record gets the id `E008`. -/
theorem addEmployeeRecord_next_id_witness :
    addEmployeeRecord (fun _ => [])
        [{ employeeId := utf16 "E007", name := utf16 "Amal", phone := utf16 "5550001" }]
        { employeeId := [], name := utf16 "Badr", phone := utf16 "5550002" }
      = [{ employeeId := utf16 "E007", name := utf16 "Amal", phone := utf16 "5550001" }] ++
        [{ employeeId := utf16 "E008", name := utf16 "Badr", phone := utf16 "5550002" }] :=
  (addEmployeeRecord_next_id.1 (fun _ => [])
    [{ employeeId := utf16 "E007", name := utf16 "Amal", phone := utf16 "5550001" }]
    { employeeId := [], name := utf16 "Badr", phone := utf16 "5550002" }
    (by
      intro x hx
      rw [List.mem_singleton] at hx
      subst hx
      exact ⟨⟨by decide, by decide⟩, by decide⟩)).trans (by decide)

end Shifts
